import Mathlib

/-!
Verification of the Plugin Execution & Event-Broadcast Subsystem of the
Buddian repository (packages/bot/src/plugins/manager.ts, plus the plugin
contract in packages/plugins/src/interface.ts).

The TypeScript manager is shallowly embedded: promises are modelled by
their settling behaviour (the handler settles after a given number of
milliseconds, either fulfilling or rejecting, or it never settles), and
the race of a handler against a setTimeout timer is modelled by comparing
the settling time with the timeout.  Time is an idealised monotone
millisecond clock: a call that starts at Date.now() = now and whose
handler settles after t ms observes an elapsed time of t; a timer armed
for T ms fires at T ms, so the timer wins the race whenever the handler
does not settle strictly earlier.  All mutation of the registry (a JS
Map, iterated in insertion order) is turned into explicit state passing
over a list of registry entries.
-/

set_option autoImplicit false

namespace Buddian

/-- Settling behaviour of an awaited plugin promise: it settles after
a number of milliseconds (fulfilling when ok is true, rejecting when ok
is false), or it never settles. -/
inductive HandlerOutcome where
  | settles (elapsedMs : Nat) (ok : Bool)
  | never
deriving Repr, DecidableEq

/-- Request-scoped context delivered with every event
(manager.ts PluginContext). -/
structure PluginContext where
  userId : String
  chatId : String
  messageId : String
  language : String
  timestamp : Nat
  metadata : List (String × String)
deriving Repr, DecidableEq

/-- Event broadcast to plugins (manager.ts PluginEvent); the payload is
kept opaque as a string. -/
structure PluginEvent where
  type : String
  data : String
  context : PluginContext
  timestamp : Nat
deriving Repr, DecidableEq

/-- The transport handle passed through to command handlers
(BotContext).  The manager never inspects it; the only part of it the
embedded subsystem observes is how awaiting ctx.reply settles, which the
built-in demo plugin command does. -/
structure BotContext where
  replyBehavior : HandlerOutcome

/-- One command exposed by a plugin (manager.ts PluginCommand).  The
execute handler is abstracted by its settling behaviour as a function of
the transport handle and the argument list. -/
structure PluginCommand where
  name : String
  description : String
  usage : String
  behavior : BotContext → List String → HandlerOutcome

/-- The contract a loadable plugin exposes (manager.ts PluginInterface).
getName, getVersion and getCommands are modelled as data; onEvent and
the optional cleanup hook are abstracted by their settling behaviour.
timeoutOverride is the optional per-call timeout of the richer plugin
contract (packages/plugins/src/interface.ts, PluginConfigSchema.timeout);
it is carried here so that theorems can ask whether the manager consults
it. -/
structure PluginInterface where
  getName : String
  getVersion : String
  getCommands : List PluginCommand
  onEventBehavior : PluginEvent → HandlerOutcome
  cleanup : Option HandlerOutcome
  timeoutOverride : Option Nat

/-- Per-plugin running statistics (manager.ts LoadedPlugin.stats). -/
structure PluginStats where
  executions : Nat
  errors : Nat
  totalExecutionTime : Nat
deriving Repr, DecidableEq

/-- A registry entry (manager.ts LoadedPlugin). -/
structure LoadedPlugin where
  name : String
  version : String
  plugin : PluginInterface
  commands : List PluginCommand
  active : Bool
  lastUsed : Option Nat
  stats : PluginStats

/-- Configuration surface consumed by the manager
(config/env.ts pluginsConfig): enabled flag, timeout in ms, directory. -/
structure PluginsConfig where
  enabled : Bool
  timeout : Nat
  directory : String

/-- Manager state: the registry (JS Map from name to LoadedPlugin,
in insertion order) and the initialized flag. -/
structure ManagerState where
  plugins : List LoadedPlugin
  initialized : Bool

/-- Outcome of Promise.race between an awaited handler and a setTimeout
timer armed for timeoutMs: the handler wins only when it settles
strictly before the timer fires. -/
inductive RaceResult where
  | resolved (elapsedMs : Nat)
  | rejected (elapsedMs : Nat)
  | timedOut
deriving Repr, DecidableEq

/-- Race a handler behaviour against a timer (manager.ts lines 278-284
and 361-367). -/
def race (b : HandlerOutcome) (timeoutMs : Nat) : RaceResult :=
  match b with
  | .settles t ok =>
      if t < timeoutMs then
        if ok then .resolved t else .rejected t
      else .timedOut
  | .never => .timedOut

/-- JS Map.get on a command table: first entry with the given name
(tables built by buildCommandTable have distinct names). -/
def cmdGet (table : List PluginCommand) (commandName : String) : Option PluginCommand :=
  table.find? (fun c => c.name = commandName)

/-- JS Map.set fold building a command table from getCommands()
(manager.ts lines 152-154): a later command with an already-present name
replaces the earlier one in place, otherwise it is appended. -/
def mapSetCmd (table : List PluginCommand) (c : PluginCommand) : List PluginCommand :=
  if table.any (fun c0 => c0.name = c.name) then
    table.map (fun c0 => if c0.name = c.name then c else c0)
  else table ++ [c]

/-- Build the command table of a plugin from its command list. -/
def buildCommandTable (cmds : List PluginCommand) : List PluginCommand :=
  cmds.foldl mapSetCmd []

/-- Result of one executeCommand call: the returned boolean, the new
manager state, the name of the plugin whose handler was invoked (if
any), and the elapsed execution time the manager observed and logged. -/
structure ExecOutcome where
  handled : Bool
  state : ManagerState
  invoked : Option String
  elapsed : Option Nat

/-- Dispatch one command on the registry entry that owns it
(manager.ts lines 274-323): race the handler against the timer; on
success increment executions, add the elapsed time and set lastUsed to
the completion time; on rejection or timeout increment errors and still
add the elapsed time (the best-effort ctx.reply of a failure notice has
no effect on the registry and is not modelled).  Returns the updated
entry, the returned boolean and the observed elapsed time. -/
def dispatchOn (p : LoadedPlugin) (cmd : PluginCommand) (ctx : BotContext)
    (args : List String) (timeoutMs now : Nat) : LoadedPlugin × Bool × Nat :=
  match race (cmd.behavior ctx args) timeoutMs with
  | .resolved t =>
      ({ p with
          stats := { p.stats with
            executions := p.stats.executions + 1,
            totalExecutionTime := p.stats.totalExecutionTime + t },
          lastUsed := some (now + t) }, true, t)
  | .rejected t =>
      ({ p with
          stats := { p.stats with
            errors := p.stats.errors + 1,
            totalExecutionTime := p.stats.totalExecutionTime + t } }, false, t)
  | .timedOut =>
      ({ p with
          stats := { p.stats with
            errors := p.stats.errors + 1,
            totalExecutionTime := p.stats.totalExecutionTime + timeoutMs } },
        false, timeoutMs)

/-- Intermediate result of the dispatch scan. -/
structure LoopOut where
  handled : Bool
  plugins : List LoadedPlugin
  invoked : Option String
  elapsed : Option Nat

/-- The for-loop of executeCommand (manager.ts lines 264-324): iterate
the registry in insertion order, skip inactive entries and entries not
owning the command, and dispatch on the first active owner. -/
def execLoop (commandName : String) (ctx : BotContext) (args : List String)
    (timeoutMs now : Nat) : List LoadedPlugin → LoopOut
  | [] => ⟨false, [], none, none⟩
  | p :: rest =>
      if p.active then
        match cmdGet p.commands commandName with
        | some cmd =>
            let d := dispatchOn p cmd ctx args timeoutMs now
            ⟨d.2.1, d.1 :: rest, some p.name, some d.2.2⟩
        | none =>
            let r := execLoop commandName ctx args timeoutMs now rest
            ⟨r.handled, p :: r.plugins, r.invoked, r.elapsed⟩
      else
        let r := execLoop commandName ctx args timeoutMs now rest
        ⟨r.handled, p :: r.plugins, r.invoked, r.elapsed⟩

/-- PluginManager.executeCommand (manager.ts lines 254-327). -/
def executeCommand (cfg : PluginsConfig) (st : ManagerState) (commandName : String)
    (ctx : BotContext) (args : List String) (now : Nat) : ExecOutcome :=
  if !st.initialized || !cfg.enabled then
    ⟨false, st, none, none⟩
  else
    let r := execLoop commandName ctx args cfg.timeout now st.plugins
    ⟨r.handled, ⟨r.plugins, st.initialized⟩, r.invoked, r.elapsed⟩

/-- The try block of executePluginEvent (manager.ts lines 360-367):
race the onEvent handler against the timer, throwing on rejection or
timeout. -/
def eventRaceBody (p : LoadedPlugin) (event : PluginEvent) (timeoutMs : Nat) :
    Except String Unit :=
  match race (p.plugin.onEventBehavior event) timeoutMs with
  | .resolved _ => .ok ()
  | .rejected _ => .error "plugin onEvent rejected"
  | .timedOut => .error "Plugin event timeout"

/-- PluginManager.executePluginEvent (manager.ts lines 355-376): the
surrounding catch swallows any error raised by the race and only logs
it, so the per-plugin attempt always settles successfully. -/
def executePluginEvent (p : LoadedPlugin) (event : PluginEvent) (timeoutMs : Nat) :
    Except String Unit :=
  match eventRaceBody p event timeoutMs with
  | .ok _ => .ok ()
  | .error _ => .ok ()

/-- Observable result of a broadcast: which plugins had onEvent invoked
(with the event they were handed), and the settled per-plugin outcomes
collected by Promise.allSettled. -/
structure BroadcastResult where
  invocations : List (String × PluginEvent)
  outcomes : List (Except String Unit)

/-- PluginManager.broadcastEvent (manager.ts lines 332-350): under the
not-initialized/disabled guard do nothing; otherwise fan out
executePluginEvent to every active plugin and fan in with
Promise.allSettled, which resolves once every attempt has settled and
never rejects, so broadcastEvent always resolves. -/
def broadcastEvent (cfg : PluginsConfig) (st : ManagerState) (event : PluginEvent) :
    Except String BroadcastResult :=
  if !st.initialized || !cfg.enabled then
    .ok ⟨[], []⟩
  else
    let targets := st.plugins.filter (fun p => p.active)
    .ok ⟨targets.map (fun p => (p.name, event)),
         targets.map (fun p => executePluginEvent p event cfg.timeout)⟩

/-- JS Map.set on the registry (manager.ts line 170): an entry whose
key is already present replaces the old entry in place, otherwise the
entry is appended. -/
def registerPlugin (plugins : List LoadedPlugin) (entry : LoadedPlugin) :
    List LoadedPlugin :=
  if plugins.any (fun q => q.name = entry.name) then
    plugins.map (fun q => if q.name = entry.name then entry else q)
  else plugins ++ [entry]

/-- The registry entry built for a freshly loaded plugin
(manager.ts lines 157-168): active, zeroed stats, no lastUsed. -/
def freshEntry (pi : PluginInterface) : LoadedPlugin :=
  { name := pi.getName
    version := pi.getVersion
    plugin := pi
    commands := buildCommandTable pi.getCommands
    active := true
    lastUsed := none
    stats := ⟨0, 0, 0⟩ }

/-- PluginManager.loadPlugin (manager.ts lines 133-184).  The dynamic
import, the contract validation and the await of plugin.initialize are
abstracted by the loader argument: it returns the plugin interface on
success and none when any of those steps failed (the catch swallows the
failure, so the registry is left unchanged for that candidate). -/
def loadPlugin (loader : String → Option PluginInterface)
    (plugins : List LoadedPlugin) (pluginDir : String) : List LoadedPlugin :=
  match loader pluginDir with
  | none => plugins
  | some pi => registerPlugin plugins (freshEntry pi)

/-- The built-in demo plugin (manager.ts lines 192-212): one command
named demo whose handler awaits ctx.reply, an onEvent that only logs and
resolves immediately, and no cleanup hook. -/
def demoPlugin : PluginInterface :=
  { getName := "Demo Plugin"
    getVersion := "1.0.0"
    getCommands := [
      { name := "demo"
        description := "Demo plugin command"
        usage := "/demo [message]"
        behavior := fun ctx _args => ctx.replyBehavior }]
    onEventBehavior := fun _ => .settles 0 true
    cleanup := none
    timeoutOverride := none }

/-- PluginManager.createBasicDemoPlugin (manager.ts lines 189-249):
register the demo plugin as a fresh entry. -/
def createBasicDemoPlugin (plugins : List LoadedPlugin) : List LoadedPlugin :=
  registerPlugin plugins (freshEntry demoPlugin)

/-- PluginManager.discoverPlugins (manager.ts lines 92-128).  The
filesystem is abstracted by the listing argument: none when readdirSync
throws because the plugin directory does not exist (in which case the
demo plugin is registered instead), some dirs with the names of the
immediate subdirectories otherwise, each of which is loaded in turn with
per-candidate failures swallowed. -/
def discoverPlugins (loader : String → Option PluginInterface)
    (listing : Option (List String)) (plugins : List LoadedPlugin) :
    List LoadedPlugin :=
  match listing with
  | none => createBasicDemoPlugin plugins
  | some dirs => dirs.foldl (loadPlugin loader) plugins

/-- PluginManager.initialize (manager.ts lines 66-87): idempotent no-op
when already initialized; no-op leaving initialized false when the
subsystem is disabled; otherwise discover plugins and set the
initialized flag (discoverPlugins swallows its own errors, so the flag
is always set on this path). -/
def initializeManager (cfg : PluginsConfig) (loader : String → Option PluginInterface)
    (listing : Option (List String)) (st : ManagerState) : ManagerState :=
  if st.initialized then st
  else if !cfg.enabled then st
  else ⟨discoverPlugins loader listing st.plugins, true⟩

/-- PluginManager.getAvailableCommands (manager.ts lines 381-395):
plugin-name/command pairs of every active plugin, in registry order. -/
def getAvailableCommands (st : ManagerState) : List (String × PluginCommand) :=
  (st.plugins.filter (fun p => p.active)).foldr
    (fun p acc => p.commands.map (fun c => (p.name, c)) ++ acc) []

/-- One row of getPluginStats. -/
structure PluginStatsEntry where
  name : String
  version : String
  active : Bool
  commandCount : Nat
  stats : PluginStats
  lastUsed : Option Nat
deriving Repr, DecidableEq

/-- PluginManager.getPluginStats (manager.ts lines 400-416).  The
lastUsed field is spread only when truthy, so a lastUsed of 0 is
reported as absent. -/
def getPluginStats (st : ManagerState) : List PluginStatsEntry :=
  st.plugins.map (fun p =>
    ⟨p.name, p.version, p.active, p.commands.length, p.stats,
      match p.lastUsed with
      | some t => if t = 0 then none else some t
      | none => none⟩)

/-- Update the registry entry a JS Map.get for the given name would
return (the first entry with that name), leaving the rest unchanged. -/
def updateEntry (plugins : List LoadedPlugin) (pluginName : String)
    (f : LoadedPlugin → LoadedPlugin) : List LoadedPlugin :=
  match plugins with
  | [] => []
  | p :: rest =>
      if p.name = pluginName then f p :: rest
      else p :: updateEntry rest pluginName f

/-- PluginManager.setPluginActive (manager.ts lines 421-434): false
when the name is unknown, otherwise toggle the active flag of that
entry in place and return true.  No plugin hook is called. -/
def setPluginActive (st : ManagerState) (pluginName : String) (active : Bool) :
    Bool × ManagerState :=
  if st.plugins.any (fun p => p.name = pluginName) then
    (true, ⟨updateEntry st.plugins pluginName (fun p => { p with active := active }),
            st.initialized⟩)
  else (false, st)

/-- PluginManager.hasCommand (manager.ts lines 439-446). -/
def hasCommand (st : ManagerState) (commandName : String) : Bool :=
  st.plugins.any (fun p => p.active && (cmdGet p.commands commandName).isSome)

/-- PluginManager.getPlugin (manager.ts lines 451-453). -/
def getPlugin (st : ManagerState) (pluginName : String) : Option LoadedPlugin :=
  st.plugins.find? (fun p => p.name = pluginName)

/-- The try block of shutdownPlugin (manager.ts lines 480-487): when a
cleanup hook is defined, await it; the await settles with its outcome
or never returns.  none models the await never settling. -/
def cleanupBody (p : LoadedPlugin) : Option (Except String Unit) :=
  match p.plugin.cleanup with
  | none => some (.ok ())
  | some (.settles _ true) => some (.ok ())
  | some (.settles _ false) => some (.error "cleanup rejected")
  | some .never => none

/-- PluginManager.shutdownPlugin (manager.ts lines 479-494): the catch
swallows a cleanup failure, so the per-plugin attempt settles
successfully whenever the cleanup await settles at all. -/
def shutdownPlugin (p : LoadedPlugin) : Option Unit :=
  (cleanupBody p).map (fun _ => ())

/-- PluginManager.shutdown (manager.ts lines 458-474): fan out
shutdownPlugin over every loaded plugin (active or not), fan in with
Promise.allSettled, then clear the registry and reset the initialized
flag.  The result is the final state paired with the names of the
plugins whose cleanup hook was invoked; it is none when some cleanup
await never settles, in which case the allSettled fan-in, and with it
shutdown, never resolves and the registry is never cleared. -/
def shutdown (st : ManagerState) : Option (ManagerState × List String) :=
  let results := st.plugins.map shutdownPlugin
  if results.all (fun r => r.isSome) then
    some (⟨[], false⟩,
      (st.plugins.filter (fun p => p.plugin.cleanup.isSome)).map (fun p => p.name))
  else none

/-- Record of one executeCommand call in a dispatch session. -/
structure CallRec where
  handled : Bool
  invoked : Option String
  elapsed : Option Nat
deriving Repr, DecidableEq

/-- Run a sequence of executeCommand calls, threading the manager state
and collecting the per-call observations. -/
def runCalls (cfg : PluginsConfig) (st : ManagerState) :
    List (String × BotContext × List String × Nat) → ManagerState × List CallRec
  | [] => (st, [])
  | (cn, ctx, args, now) :: rest =>
      let o := executeCommand cfg st cn ctx args now
      let r := runCalls cfg o.state rest
      (r.1, ⟨o.handled, o.invoked, o.elapsed⟩ :: r.2)

/-- Number of calls in a session trace that invoked the given plugin
and returned true. -/
def succCount (pluginName : String) (tr : List CallRec) : Nat :=
  (tr.filter (fun r => r.invoked = some pluginName ∧ r.handled = true)).length

/-- Number of calls in a session trace that invoked the given plugin
and returned false. -/
def errCount (pluginName : String) (tr : List CallRec) : Nat :=
  (tr.filter (fun r => r.invoked = some pluginName ∧ r.handled = false)).length

/-- Sum of the elapsed times observed over the calls of a session trace
that invoked the given plugin. -/
def elapsedSum (pluginName : String) (tr : List CallRec) : Nat :=
  ((tr.filter (fun r => r.invoked = some pluginName)).map
    (fun r => r.elapsed.getD 0)).sum

/-- Whether a handler behaviour throws or rejects (as opposed to
fulfilling or never settling). -/
def throws (b : HandlerOutcome) : Bool :=
  match b with
  | .settles _ ok => !ok
  | .never => false

/-- Modelled from the wording of the spec, for comparison with the
code: the effective timeout of a dispatch would be the per-call
override declared by the plugin when set, the manager default
otherwise. -/
def specEffectiveTimeout (override : Option Nat) (defaultTimeout : Nat) : Nat :=
  override.getD defaultTimeout

/-! Helper definitions and lemmas about the embedding. -/

/-- Replace the per-call timeout override declared by the plugin behind
a registry entry, leaving everything else unchanged. -/
def withOverride (p : LoadedPlugin) (o : Option Nat) : LoadedPlugin :=
  { p with plugin := { p.plugin with timeoutOverride := o } }

/-- A plugin interface with one command, used to build concrete
registry states. -/
def simplePlugin (n cn : String) (b : HandlerOutcome)
    (onEv : HandlerOutcome) (cl : Option HandlerOutcome)
    (tOver : Option Nat) : PluginInterface :=
  { getName := n
    getVersion := "1.0.0"
    getCommands := [⟨cn, "test command", "/test", fun _ _ => b⟩]
    onEventBehavior := fun _ => onEv
    cleanup := cl
    timeoutOverride := tOver }

/-- A configuration with the subsystem enabled and a 100 ms timeout. -/
def cfg100 : PluginsConfig := ⟨true, 100, "./plugins"⟩

/-- A transport handle whose reply resolves immediately. -/
def ctxOk : BotContext := ⟨.settles 0 true⟩

/-- A sample broadcast event. -/
def eventA : PluginEvent := ⟨"message_received", "payload", ⟨"u1", "c1", "m1", "en", 7, []⟩, 7⟩

/-- Concrete plugin declaring a per-call timeout override of 5 ms while
its command handler fulfils after 50 ms. -/
def pluginX : PluginInterface :=
  simplePlugin "X" "x" (.settles 50 true) (.settles 0 true) none (some 5)

/-- Concrete plugin whose command handler rejects immediately. -/
def pluginRej : PluginInterface :=
  simplePlugin "R" "r" (.settles 0 false) (.settles 0 true) none none

/-- A loader that fails on every candidate directory. -/
def loaderNone : String → Option PluginInterface := fun _ => none

/-- A configuration with the subsystem disabled. -/
def cfgOff : PluginsConfig := ⟨false, 100, "./plugins"⟩

/-- Concrete registry entries for concrete registry states. -/
def entryA : LoadedPlugin :=
  freshEntry (simplePlugin "A" "foo" (.settles 1 true) (.settles 0 true) none none)

def entryB : LoadedPlugin :=
  freshEntry (simplePlugin "B" "bar" (.settles 1 true) (.settles 0 false) none none)

def entryC : LoadedPlugin :=
  freshEntry (simplePlugin "C" "baz" (.settles 1 true) (.settles 0 true) none none)

/-- Registry with three active plugins; the onEvent handler of the
middle one rejects. -/
def stW1 : ManagerState := ⟨[entryA, entryB, entryC], true⟩

/-- An inactive entry owning command x. -/
def entryI : LoadedPlugin :=
  { freshEntry (simplePlugin "I" "x" (.settles 1 true) (.settles 0 true) none none)
    with active := false }

def entryP : LoadedPlugin :=
  freshEntry (simplePlugin "P" "x" (.settles 2 true) (.settles 0 true) none none)

def entryQ : LoadedPlugin :=
  freshEntry (simplePlugin "Q" "x" (.settles 3 true) (.settles 0 true) none none)

/-- Registry where an inactive owner of x precedes two active owners. -/
def stW2 : ManagerState := ⟨[entryI, entryP, entryQ], true⟩

def entryS : LoadedPlugin :=
  freshEntry (simplePlugin "S" "s" (.settles 3 true) (.settles 0 true) none none)

def stW3 : ManagerState := ⟨[entryS], true⟩

def stW4 : ManagerState := ⟨[freshEntry pluginX], true⟩

/-- The command table entry of pluginX. -/
def cmdX : PluginCommand :=
  ⟨"x", "test command", "/test", fun _ _ => .settles 50 true⟩

def stW6 : ManagerState := ⟨[freshEntry pluginRej], true⟩

/-- The command table entry of pluginRej. -/
def cmdR : PluginCommand :=
  ⟨"r", "test command", "/test", fun _ _ => .settles 0 false⟩

def entryY : LoadedPlugin :=
  freshEntry (simplePlugin "Y" "y" (.settles 1 true) (.settles 0 true) none none)

def stW7 : ManagerState := ⟨[entryP, entryY], true⟩

/-- An entry whose cleanup hook rejects. -/
def entryCl1 : LoadedPlugin :=
  freshEntry (simplePlugin "D1" "c1" (.settles 1 true) (.settles 0 true)
    (some (.settles 0 false)) none)

/-- An inactive entry with no cleanup hook. -/
def entryCl2 : LoadedPlugin :=
  { freshEntry (simplePlugin "D2" "c2" (.settles 1 true) (.settles 0 true) none
      none) with active := false }

def stW8 : ManagerState := ⟨[entryCl1, entryCl2], true⟩

/-- A single dispatch session. -/
def callsW : List (String × BotContext × List String × Nat) := [("s", ctxOk, [], 0)]

/-- A plugin sharing the name of entryP but with a different command. -/
def piP2 : PluginInterface :=
  simplePlugin "P" "z" (.settles 4 true) (.settles 0 true) none none

def loaderP2 : String → Option PluginInterface := fun _ => some piP2

/-- Whether the race against the timer is won by a fulfilling handler
(the success branch of the dispatch). -/
def raceSuccess (b : HandlerOutcome) (timeoutMs : Nat) : Bool :=
  match race b timeoutMs with
  | .resolved _ => true
  | _ => false

/-- The elapsed time the manager observes for a dispatch: the settling
time when the handler wins the race, the timer duration otherwise. -/
def raceElapsed (b : HandlerOutcome) (timeoutMs : Nat) : Nat :=
  match race b timeoutMs with
  | .resolved t => t
  | .rejected t => t
  | .timedOut => timeoutMs

/-- Whether a registry entry owns a command of the given name. -/
def ownsCmd (p : LoadedPlugin) (commandName : String) : Bool :=
  (cmdGet p.commands commandName).isSome

/-- The scan predicate of the dispatch loop: an active entry owning the
command. -/
def activeOwner (commandName : String) (p : LoadedPlugin) : Bool :=
  p.active && ownsCmd p commandName

/-- Dispatch-relevant skeleton of a registry entry: its name, its
active flag and its command names. -/
def skel (p : LoadedPlugin) : String × Bool × List String :=
  (p.name, p.active, p.commands.map (fun c => c.name))

/-- The scan predicate expressed on skeletons. -/
def skelOwner (commandName : String) (s : String × Bool × List String) : Bool :=
  s.2.1 && s.2.2.any (fun n => decide (n = commandName))

lemma cmdGet_isSome_eq_any (commandName : String) :
    ∀ tbl : List PluginCommand,
      (cmdGet tbl commandName).isSome =
        tbl.any (fun c => decide (c.name = commandName))
  | [] => rfl
  | c :: tbl => by
      by_cases h : c.name = commandName <;>
        simp [cmdGet, List.find?_cons, h, ← cmdGet_isSome_eq_any commandName tbl]

lemma any_name_map (cn : String) :
    ∀ cmds : List PluginCommand,
      (cmds.map (fun c => c.name)).any (fun n => decide (n = cn)) =
        cmds.any (fun c => decide (c.name = cn))
  | [] => rfl
  | c :: cmds => by
      simp only [List.map_cons, List.any_cons, any_name_map cn cmds]

lemma activeOwner_eq_skel (cn : String) (p : LoadedPlugin) :
    activeOwner cn p = skelOwner cn (skel p) := by
  simp only [activeOwner, ownsCmd, skelOwner, skel, cmdGet_isSome_eq_any,
    any_name_map]

lemma dispatchOn_name (p : LoadedPlugin) (cmd : PluginCommand) (ctx : BotContext)
    (args : List String) (T now : Nat) :
    (dispatchOn p cmd ctx args T now).1.name = p.name := by
  cases h : race (cmd.behavior ctx args) T <;> simp [dispatchOn, h]

lemma dispatchOn_skel (p : LoadedPlugin) (cmd : PluginCommand) (ctx : BotContext)
    (args : List String) (T now : Nat) :
    skel (dispatchOn p cmd ctx args T now).1 = skel p := by
  cases h : race (cmd.behavior ctx args) T <;> simp [dispatchOn, h, skel]

lemma dispatchOn_handled (p : LoadedPlugin) (cmd : PluginCommand) (ctx : BotContext)
    (args : List String) (T now : Nat) :
    (dispatchOn p cmd ctx args T now).2.1 = raceSuccess (cmd.behavior ctx args) T := by
  cases h : race (cmd.behavior ctx args) T <;> simp [dispatchOn, h, raceSuccess]

lemma dispatchOn_elapsed (p : LoadedPlugin) (cmd : PluginCommand) (ctx : BotContext)
    (args : List String) (T now : Nat) :
    (dispatchOn p cmd ctx args T now).2.2 = raceElapsed (cmd.behavior ctx args) T := by
  cases h : race (cmd.behavior ctx args) T <;> simp [dispatchOn, h, raceElapsed]

lemma dispatchOn_stats (p : LoadedPlugin) (cmd : PluginCommand) (ctx : BotContext)
    (args : List String) (T now : Nat) :
    (dispatchOn p cmd ctx args T now).1.stats =
      ⟨p.stats.executions + (if raceSuccess (cmd.behavior ctx args) T then 1 else 0),
       p.stats.errors + (if raceSuccess (cmd.behavior ctx args) T then 0 else 1),
       p.stats.totalExecutionTime + raceElapsed (cmd.behavior ctx args) T⟩ := by
  cases h : race (cmd.behavior ctx args) T <;>
    simp [dispatchOn, h, raceSuccess, raceElapsed]

lemma dispatchOn_lastUsed (p : LoadedPlugin) (cmd : PluginCommand) (ctx : BotContext)
    (args : List String) (T now : Nat) :
    (dispatchOn p cmd ctx args T now).1.lastUsed =
      if raceSuccess (cmd.behavior ctx args) T then
        some (now + raceElapsed (cmd.behavior ctx args) T)
      else p.lastUsed := by
  cases h : race (cmd.behavior ctx args) T <;>
    simp [dispatchOn, h, raceSuccess, raceElapsed]

lemma dispatchOn_plugin (p : LoadedPlugin) (cmd : PluginCommand) (ctx : BotContext)
    (args : List String) (T now : Nat) :
    (dispatchOn p cmd ctx args T now).1.plugin = p.plugin := by
  cases h : race (cmd.behavior ctx args) T <;> simp [dispatchOn, h]

lemma execLoop_cons_inactive (cn : String) (ctx : BotContext) (args : List String)
    (T now : Nat) (p : LoadedPlugin) (rest : List LoadedPlugin)
    (hpa : p.active = false) :
    execLoop cn ctx args T now (p :: rest) =
      ⟨(execLoop cn ctx args T now rest).handled,
       p :: (execLoop cn ctx args T now rest).plugins,
       (execLoop cn ctx args T now rest).invoked,
       (execLoop cn ctx args T now rest).elapsed⟩ := by
  simp [execLoop, hpa]

lemma execLoop_cons_noCmd (cn : String) (ctx : BotContext) (args : List String)
    (T now : Nat) (p : LoadedPlugin) (rest : List LoadedPlugin)
    (hpa : p.active = true) (hc : cmdGet p.commands cn = none) :
    execLoop cn ctx args T now (p :: rest) =
      ⟨(execLoop cn ctx args T now rest).handled,
       p :: (execLoop cn ctx args T now rest).plugins,
       (execLoop cn ctx args T now rest).invoked,
       (execLoop cn ctx args T now rest).elapsed⟩ := by
  simp [execLoop, hpa, hc]

lemma execLoop_cons_hit (cn : String) (ctx : BotContext) (args : List String)
    (T now : Nat) (p : LoadedPlugin) (rest : List LoadedPlugin)
    (cmd : PluginCommand) (hpa : p.active = true)
    (hc : cmdGet p.commands cn = some cmd) :
    execLoop cn ctx args T now (p :: rest) =
      ⟨(dispatchOn p cmd ctx args T now).2.1,
       (dispatchOn p cmd ctx args T now).1 :: rest,
       some p.name,
       some (dispatchOn p cmd ctx args T now).2.2⟩ := by
  simp [execLoop, hpa, hc]

lemma execLoop_skel_map (cn : String) (ctx : BotContext) (args : List String)
    (T now : Nat) :
    ∀ l : List LoadedPlugin,
      ((execLoop cn ctx args T now l).plugins).map skel = l.map skel
  | [] => rfl
  | p :: rest => by
      cases hpa : p.active with
      | true =>
          cases hc : cmdGet p.commands cn with
          | some cmd =>
              rw [execLoop_cons_hit cn ctx args T now p rest cmd hpa hc]
              simp [dispatchOn_skel]
          | none =>
              rw [execLoop_cons_noCmd cn ctx args T now p rest hpa hc]
              simp [execLoop_skel_map cn ctx args T now rest]
      | false =>
          rw [execLoop_cons_inactive cn ctx args T now p rest hpa]
          simp [execLoop_skel_map cn ctx args T now rest]

lemma execLoop_names (cn : String) (ctx : BotContext) (args : List String)
    (T now : Nat) (l : List LoadedPlugin) :
    ((execLoop cn ctx args T now l).plugins).map (fun q => q.name) =
      l.map (fun q => q.name) := by
  have h := congrArg (List.map (fun s : String × Bool × List String => s.1))
    (execLoop_skel_map cn ctx args T now l)
  simpa [List.map_map, skel, Function.comp] using h

lemma execLoop_invoked (cn : String) (ctx : BotContext) (args : List String)
    (T now : Nat) :
    ∀ l : List LoadedPlugin,
      (execLoop cn ctx args T now l).invoked =
        (l.find? (activeOwner cn)).map (fun q => q.name)
  | [] => rfl
  | p :: rest => by
      cases hpa : p.active with
      | true =>
          cases hc : cmdGet p.commands cn with
          | some cmd =>
              rw [execLoop_cons_hit cn ctx args T now p rest cmd hpa hc]
              have hp : activeOwner cn p = true := by
                simp [activeOwner, ownsCmd, hpa, hc]
              simp [List.find?_cons, hp]
          | none =>
              rw [execLoop_cons_noCmd cn ctx args T now p rest hpa hc]
              have hp : activeOwner cn p = false := by
                simp [activeOwner, ownsCmd, hpa, hc]
              simp [List.find?_cons, hp, execLoop_invoked cn ctx args T now rest]
      | false =>
          rw [execLoop_cons_inactive cn ctx args T now p rest hpa]
          have hp : activeOwner cn p = false := by simp [activeOwner, hpa]
          simp [List.find?_cons, hp, execLoop_invoked cn ctx args T now rest]

lemma execLoop_of_no_owner (cn : String) (ctx : BotContext) (args : List String)
    (T now : Nat) :
    ∀ l : List LoadedPlugin, l.find? (activeOwner cn) = none →
      execLoop cn ctx args T now l = ⟨false, l, none, none⟩
  | [], _ => rfl
  | p :: rest, h => by
      rw [List.find?_cons] at h
      cases hp : activeOwner cn p with
      | true => rw [hp] at h; exact absurd h (by simp)
      | false =>
          rw [hp] at h
          have hrest := execLoop_of_no_owner cn ctx args T now rest h
          cases hpa : p.active with
          | true =>
              cases hc : cmdGet p.commands cn with
              | some cmd =>
                  exact absurd hp (by simp [activeOwner, ownsCmd, hpa, hc])
              | none =>
                  rw [execLoop_cons_noCmd cn ctx args T now p rest hpa hc, hrest]
          | false =>
              rw [execLoop_cons_inactive cn ctx args T now p rest hpa, hrest]

lemma execLoop_append (cn : String) (ctx : BotContext) (args : List String)
    (T now : Nat) :
    ∀ l1 l2 : List LoadedPlugin, (∀ q ∈ l1, activeOwner cn q = false) →
      execLoop cn ctx args T now (l1 ++ l2) =
        ⟨(execLoop cn ctx args T now l2).handled,
         l1 ++ (execLoop cn ctx args T now l2).plugins,
         (execLoop cn ctx args T now l2).invoked,
         (execLoop cn ctx args T now l2).elapsed⟩
  | [], l2, _ => rfl
  | p :: l1, l2, h => by
      have hp : activeOwner cn p = false := h p (by simp)
      have hrec := execLoop_append cn ctx args T now l1 l2
        (fun q hq => h q (by simp [hq]))
      cases hpa : p.active with
      | true =>
          cases hc : cmdGet p.commands cn with
          | some cmd =>
              exact absurd hp (by simp [activeOwner, ownsCmd, hpa, hc])
          | none =>
              rw [List.cons_append,
                execLoop_cons_noCmd cn ctx args T now p (l1 ++ l2) hpa hc, hrec]
              rfl
      | false =>
          rw [List.cons_append,
            execLoop_cons_inactive cn ctx args T now p (l1 ++ l2) hpa, hrec]
          rfl

lemma execLoop_split_hit (cn : String) (ctx : BotContext) (args : List String)
    (T now : Nat) (l1 l2 : List LoadedPlugin) (p : LoadedPlugin)
    (cmd : PluginCommand) (h1 : ∀ q ∈ l1, activeOwner cn q = false)
    (hpa : p.active = true) (hc : cmdGet p.commands cn = some cmd) :
    execLoop cn ctx args T now (l1 ++ p :: l2) =
      ⟨(dispatchOn p cmd ctx args T now).2.1,
       l1 ++ (dispatchOn p cmd ctx args T now).1 :: l2,
       some p.name,
       some (dispatchOn p cmd ctx args T now).2.2⟩ := by
  rw [execLoop_append cn ctx args T now l1 (p :: l2) h1,
    execLoop_cons_hit cn ctx args T now p l2 cmd hpa hc]

lemma execLoop_findName_of_ne (cn : String) (ctx : BotContext) (args : List String)
    (T now : Nat) (pn : String) :
    ∀ l : List LoadedPlugin, (execLoop cn ctx args T now l).invoked ≠ some pn →
      ((execLoop cn ctx args T now l).plugins).find? (fun q => q.name = pn) =
        l.find? (fun q => q.name = pn)
  | [], _ => rfl
  | p :: rest, h => by
      cases hpa : p.active with
      | true =>
          cases hc : cmdGet p.commands cn with
          | some cmd =>
              rw [execLoop_cons_hit cn ctx args T now p rest cmd hpa hc] at h ⊢
              have hne : p.name ≠ pn := by
                intro he
                exact h (by simp [he])
              simp [List.find?_cons, dispatchOn_name, hne]
          | none =>
              rw [execLoop_cons_noCmd cn ctx args T now p rest hpa hc] at h ⊢
              have hrec := execLoop_findName_of_ne cn ctx args T now pn rest (by
                simpa using h)
              simp only [List.find?_cons]
              cases hn : decide (p.name = pn) with
              | true => rfl
              | false => exact hrec
      | false =>
          rw [execLoop_cons_inactive cn ctx args T now p rest hpa] at h ⊢
          have hrec := execLoop_findName_of_ne cn ctx args T now pn rest (by
            simpa using h)
          simp only [List.find?_cons]
          cases hn : decide (p.name = pn) with
          | true => rfl
          | false => exact hrec

lemma invoked_mem_names (cn : String) (ctx : BotContext) (args : List String)
    (T now : Nat) (pn : String) (l : List LoadedPlugin)
    (h : (execLoop cn ctx args T now l).invoked = some pn) :
    pn ∈ l.map (fun q => q.name) := by
  rw [execLoop_invoked] at h
  cases hf : l.find? (activeOwner cn) with
  | none => rw [hf] at h; exact absurd h (by simp)
  | some q =>
      rw [hf] at h
      have hq : q ∈ l := List.mem_of_find?_eq_some hf
      have : q.name = pn := by simpa using h
      exact this ▸ List.mem_map_of_mem (fun r => r.name) hq

lemma execLoop_hit_char (cn : String) (ctx : BotContext) (args : List String)
    (T now : Nat) (pn : String) :
    ∀ l : List LoadedPlugin, (l.map (fun q => q.name)).Nodup →
      (execLoop cn ctx args T now l).invoked = some pn →
      ∃ p cmd, l.find? (fun q => q.name = pn) = some p ∧
        p.active = true ∧ cmdGet p.commands cn = some cmd ∧
        (execLoop cn ctx args T now l).handled =
          (dispatchOn p cmd ctx args T now).2.1 ∧
        (execLoop cn ctx args T now l).elapsed =
          some (dispatchOn p cmd ctx args T now).2.2 ∧
        ((execLoop cn ctx args T now l).plugins).find? (fun q => q.name = pn) =
          some (dispatchOn p cmd ctx args T now).1
  | [], _, h => absurd h (by simp [execLoop])
  | p :: rest, hnd, h => by
      have hnd2 : (rest.map (fun q => q.name)).Nodup := by
        simpa using hnd.of_cons
      have hnotmem : p.name ∉ rest.map (fun q => q.name) := by
        intro hmem
        rw [List.mem_map] at hmem
        obtain ⟨q, hq, hqn⟩ := hmem
        have := (by simpa using hnd :
          (∀ x ∈ rest, ¬x.name = p.name) ∧ (rest.map (fun r => r.name)).Nodup).1
        exact this q hq hqn
      cases hpa : p.active with
      | true =>
          cases hc : cmdGet p.commands cn with
          | some cmd =>
              rw [execLoop_cons_hit cn ctx args T now p rest cmd hpa hc] at h ⊢
              have hpn : p.name = pn := by simpa using h
              refine ⟨p, cmd, ?_, hpa, hc, rfl, rfl, ?_⟩
              · simp [List.find?_cons, hpn]
              · simp [List.find?_cons, dispatchOn_name, hpn]
          | none =>
              rw [execLoop_cons_noCmd cn ctx args T now p rest hpa hc] at h ⊢
              have hrest : (execLoop cn ctx args T now rest).invoked = some pn := by
                simpa using h
              have hpn : p.name ≠ pn := by
                intro he
                exact hnotmem (he ▸ invoked_mem_names cn ctx args T now pn rest hrest)
              obtain ⟨q, cmd, hfind, hqa, hqc, hh, he, hf2⟩ :=
                execLoop_hit_char cn ctx args T now pn rest hnd2 hrest
              exact ⟨q, cmd, by simp [List.find?_cons, hpn, hfind], hqa, hqc,
                by simpa using hh, by simpa using he,
                by simp [List.find?_cons, hpn, hf2]⟩
      | false =>
          rw [execLoop_cons_inactive cn ctx args T now p rest hpa] at h ⊢
          have hrest : (execLoop cn ctx args T now rest).invoked = some pn := by
            simpa using h
          have hpn : p.name ≠ pn := by
            intro he
            exact hnotmem (he ▸ invoked_mem_names cn ctx args T now pn rest hrest)
          obtain ⟨q, cmd, hfind, hqa, hqc, hh, he, hf2⟩ :=
            execLoop_hit_char cn ctx args T now pn rest hnd2 hrest
          exact ⟨q, cmd, by simp [List.find?_cons, hpn, hfind], hqa, hqc,
            by simpa using hh, by simpa using he,
            by simp [List.find?_cons, hpn, hf2]⟩

lemma executeCommand_pos (cfg : PluginsConfig) (st : ManagerState) (cn : String)
    (ctx : BotContext) (args : List String) (now : Nat)
    (hinit : st.initialized = true) (hen : cfg.enabled = true) :
    executeCommand cfg st cn ctx args now =
      ⟨(execLoop cn ctx args cfg.timeout now st.plugins).handled,
       ⟨(execLoop cn ctx args cfg.timeout now st.plugins).plugins, true⟩,
       (execLoop cn ctx args cfg.timeout now st.plugins).invoked,
       (execLoop cn ctx args cfg.timeout now st.plugins).elapsed⟩ := by
  simp [executeCommand, hinit, hen]

lemma executeCommand_guard (cfg : PluginsConfig) (st : ManagerState) (cn : String)
    (ctx : BotContext) (args : List String) (now : Nat)
    (h : st.initialized = false ∨ cfg.enabled = false) :
    executeCommand cfg st cn ctx args now = ⟨false, st, none, none⟩ := by
  rcases h with h | h <;> simp [executeCommand, h]

lemma broadcastEvent_guard (cfg : PluginsConfig) (st : ManagerState)
    (event : PluginEvent) (h : st.initialized = false ∨ cfg.enabled = false) :
    broadcastEvent cfg st event = .ok ⟨[], []⟩ := by
  rcases h with h | h <;> simp [broadcastEvent, h]

lemma broadcastEvent_pos (cfg : PluginsConfig) (st : ManagerState)
    (event : PluginEvent) (hinit : st.initialized = true)
    (hen : cfg.enabled = true) :
    broadcastEvent cfg st event =
      .ok ⟨(st.plugins.filter (fun p => p.active)).map (fun p => (p.name, event)),
           (st.plugins.filter (fun p => p.active)).map
             (fun p => executePluginEvent p event cfg.timeout)⟩ := by
  simp [broadcastEvent, hinit, hen]

lemma dispatchOn_active (p : LoadedPlugin) (cmd : PluginCommand) (ctx : BotContext)
    (args : List String) (T now : Nat) :
    (dispatchOn p cmd ctx args T now).1.active = p.active := by
  cases h : race (cmd.behavior ctx args) T <;> simp [dispatchOn, h]

lemma dispatchOn_commands (p : LoadedPlugin) (cmd : PluginCommand) (ctx : BotContext)
    (args : List String) (T now : Nat) :
    (dispatchOn p cmd ctx args T now).1.commands = p.commands := by
  cases h : race (cmd.behavior ctx args) T <;> simp [dispatchOn, h]

lemma notmem_of_nodup_split {α : Type} (l1 : List α) (a : α) (l2 : List α)
    (h : (l1 ++ a :: l2).Nodup) : a ∉ l1 := by
  intro hm
  rcases List.nodup_append.mp h with ⟨-, -, hdisj⟩
  exact hdisj hm (by simp)

lemma find?_name_split (l1 : List LoadedPlugin) (p : LoadedPlugin)
    (l2 : List LoadedPlugin) (h : p.name ∉ l1.map (fun q => q.name)) :
    (l1 ++ p :: l2).find? (fun q => q.name = p.name) = some p := by
  induction l1 with
  | nil => simp [List.find?_cons]
  | cons q l1 ih =>
      have hq : q.name ≠ p.name := by
        intro he
        exact h (by simp [he])
      have h1 : p.name ∉ l1.map (fun r => r.name) := by
        intro hm
        exact h (by simp [hm])
      simp [List.find?_cons, hq, ih h1]

lemma executeCommand_names (cfg : PluginsConfig) (st : ManagerState) (cn : String)
    (ctx : BotContext) (args : List String) (now : Nat) :
    ((executeCommand cfg st cn ctx args now).state.plugins).map (fun q => q.name) =
      st.plugins.map (fun q => q.name) := by
  cases hi : st.initialized with
  | false => rw [executeCommand_guard cfg st cn ctx args now (Or.inl hi)]
  | true =>
      cases he : cfg.enabled with
      | false => rw [executeCommand_guard cfg st cn ctx args now (Or.inr he)]
      | true =>
          rw [executeCommand_pos cfg st cn ctx args now hi he]
          exact execLoop_names cn ctx args cfg.timeout now st.plugins

lemma executeCommand_invoked_pos (cfg : PluginsConfig) (st : ManagerState)
    (cn : String) (ctx : BotContext) (args : List String) (now : Nat) (pn : String)
    (h : (executeCommand cfg st cn ctx args now).invoked = some pn) :
    st.initialized = true ∧ cfg.enabled = true := by
  cases hi : st.initialized with
  | false =>
      rw [executeCommand_guard cfg st cn ctx args now (Or.inl hi)] at h
      exact absurd h (by simp)
  | true =>
      cases he : cfg.enabled with
      | false =>
          rw [executeCommand_guard cfg st cn ctx args now (Or.inr he)] at h
          exact absurd h (by simp)
      | true => exact ⟨rfl, rfl⟩

lemma executeCommand_getPlugin_of_ne (cfg : PluginsConfig) (st : ManagerState)
    (cn : String) (ctx : BotContext) (args : List String) (now : Nat) (pn : String)
    (h : (executeCommand cfg st cn ctx args now).invoked ≠ some pn) :
    getPlugin (executeCommand cfg st cn ctx args now).state pn = getPlugin st pn := by
  cases hi : st.initialized with
  | false => rw [executeCommand_guard cfg st cn ctx args now (Or.inl hi)]
  | true =>
      cases he : cfg.enabled with
      | false => rw [executeCommand_guard cfg st cn ctx args now (Or.inr he)]
      | true =>
          rw [executeCommand_pos cfg st cn ctx args now hi he] at h ⊢
          exact execLoop_findName_of_ne cn ctx args cfg.timeout now pn st.plugins h


lemma invocations_filter_one (e : PluginEvent) (qn : String) :
    ∀ l : List LoadedPlugin, (l.map (fun q => q.name)).Nodup →
      qn ∈ l.map (fun q => q.name) →
      ((l.map (fun p => (p.name, e))).filter (fun x => x.1 = qn)).length = 1
  | [], _, h => absurd h (by simp)
  | p :: rest, hnd, h => by
      have hnm : p.name ∉ rest.map (fun q => q.name) :=
        (List.nodup_cons.mp (by simpa using hnd)).1
      have hnd2 : (rest.map (fun q => q.name)).Nodup :=
        (List.nodup_cons.mp (by simpa using hnd)).2
      by_cases hq : p.name = qn
      · have h0 :
            ((rest.map (fun p => (p.name, e))).filter (fun x => x.1 = qn)).length = 0 := by
          rw [List.length_eq_zero, List.filter_eq_nil]
          intro x hx
          rw [List.mem_map] at hx
          obtain ⟨r, hr, hrx⟩ := hx
          have hx1 : x.1 = r.name := by rw [← hrx]
          simp only [hx1, decide_eq_true_eq]
          intro hrn
          exact hnm (by
            rw [List.mem_map]
            exact ⟨r, hr, by rw [hrn, ← hq]⟩)
        simp [List.filter_cons, hq, h0]
      · have hmem : qn ∈ rest.map (fun q => q.name) := by
          rcases (by simpa using h : qn = p.name ∨ ∃ a ∈ rest, a.name = qn) with
            hc | hc
          · exact absurd hc.symm hq
          · rw [List.mem_map]
            obtain ⟨a, ha, han⟩ := hc
            exact ⟨a, ha, han⟩
        simp [List.filter_cons, hq, invocations_filter_one e qn rest hnd2 hmem]

lemma invocations_snd (e : PluginEvent) (qn : String) (l : List LoadedPlugin) :
    ∀ x ∈ l.map (fun p => (p.name, e)), x.1 = qn → x = (qn, e) := by
  intro x hx h1
  rw [List.mem_map] at hx
  obtain ⟨r, -, hrx⟩ := hx
  rw [← hrx] at h1 ⊢
  simp at h1
  simp [h1]

/-- C9: whenever the manager is not initialized or the plugin subsystem
is configured disabled, executeCommand returns false immediately with
the registry state unchanged and nothing invoked, and broadcastEvent
returns without invoking any plugin and without touching the state; and
whenever no active plugin owns the requested command name,
executeCommand returns false with no side effect on the registry or the
statistics. -/
theorem executeCommand_guards_noop :
    (∀ (cfg : PluginsConfig) (st : ManagerState) (cn : String) (ctx : BotContext)
        (args : List String) (now : Nat),
      st.initialized = false ∨ cfg.enabled = false →
      executeCommand cfg st cn ctx args now = ⟨false, st, none, none⟩) ∧
    (∀ (cfg : PluginsConfig) (st : ManagerState) (e : PluginEvent),
      st.initialized = false ∨ cfg.enabled = false →
      broadcastEvent cfg st e = .ok ⟨[], []⟩) ∧
    (∀ (cfg : PluginsConfig) (st : ManagerState) (cn : String) (ctx : BotContext)
        (args : List String) (now : Nat),
      (∀ p ∈ st.plugins, activeOwner cn p = false) →
      executeCommand cfg st cn ctx args now = ⟨false, st, none, none⟩) := by
  refine ⟨fun cfg st cn ctx args now h => executeCommand_guard cfg st cn ctx args now h,
    fun cfg st e h => broadcastEvent_guard cfg st e h,
    fun cfg st cn ctx args now h => ?_⟩
  cases hi : st.initialized with
  | false => exact executeCommand_guard cfg st cn ctx args now (Or.inl hi)
  | true =>
      cases he : cfg.enabled with
      | false => exact executeCommand_guard cfg st cn ctx args now (Or.inr he)
      | true =>
          rw [executeCommand_pos cfg st cn ctx args now hi he]
          have hnone : st.plugins.find? (activeOwner cn) = none := by
            rw [List.find?_eq_none]
            intro p hp
            simp [h p hp]
          rw [execLoop_of_no_owner cn ctx args cfg.timeout now st.plugins hnone]
          have : st = ⟨st.plugins, true⟩ := by
            cases st with
            | mk pl ini => simpa using hi.symm
          exact congrArg (fun s => ExecOutcome.mk false s none none) this.symm

/-- C1: for every registry in which exactly one active plugin's onEvent
handler throws or rejects, broadcastEvent still resolves normally (no
error reaches the caller) and every other active plugin's onEvent is
invoked exactly once with that event. -/
theorem broadcastEvent_isolation (cfg : PluginsConfig) (st : ManagerState)
    (e : PluginEvent) (pn : String) (p0 : LoadedPlugin)
    (hinit : st.initialized = true) (hen : cfg.enabled = true)
    (hnd : (st.plugins.map (fun q => q.name)).Nodup)
    (hp0 : getPlugin st pn = some p0) (hp0a : p0.active = true)
    (hthrow : throws (p0.plugin.onEventBehavior e) = true)
    (hothers : ∀ q ∈ st.plugins, q.active = true → q.name ≠ pn →
      throws (q.plugin.onEventBehavior e) = false) :
    ∃ r, broadcastEvent cfg st e = Except.ok r ∧
      ∀ q ∈ st.plugins, q.active = true → q.name ≠ pn →
        ((r.invocations.filter (fun x => x.1 = q.name)).length = 1 ∧
          ∀ x ∈ r.invocations, x.1 = q.name → x = (q.name, e)) := by
  rw [broadcastEvent_pos cfg st e hinit hen]
  refine ⟨_, rfl, fun q hq hqa hqn => ?_⟩
  have hndf : ((st.plugins.filter (fun p => p.active)).map (fun q => q.name)).Nodup := by
    refine List.Nodup.sublist ?_ hnd
    exact List.Sublist.map (fun q => q.name) (List.filter_sublist st.plugins)
  have hmem : q.name ∈ (st.plugins.filter (fun p => p.active)).map (fun r => r.name) := by
    rw [List.mem_map]
    exact ⟨q, List.mem_filter.mpr ⟨hq, by simp [hqa]⟩, rfl⟩
  exact ⟨invocations_filter_one e q.name (st.plugins.filter (fun p => p.active))
      hndf hmem,
    invocations_snd e q.name (st.plugins.filter (fun p => p.active))⟩

/-- C2: in every registry state where two or more active plugins own a
command named X, executeCommand invokes the handler of the
earliest-registered active plugin owning X and only that handler,
skipping inactive plugins in the scan, and a repeated call on the
resulting registry state picks the same plugin. -/
theorem executeCommand_first_match (cfg : PluginsConfig) (st : ManagerState)
    (X : String) (ctx : BotContext) (args : List String) (now now2 : Nat)
    (hinit : st.initialized = true) (hen : cfg.enabled = true)
    (hnd : (st.plugins.map (fun q => q.name)).Nodup)
    (l1 l2 l3 : List LoadedPlugin) (p q : LoadedPlugin)
    (hsplit : st.plugins = l1 ++ p :: (l2 ++ q :: l3))
    (hpa : p.active = true) (hqa : q.active = true)
    (hpX : ownsCmd p X = true) (hqX : ownsCmd q X = true)
    (hfirst : ∀ r ∈ l1, activeOwner X r = false) :
    (executeCommand cfg st X ctx args now).invoked = some p.name ∧
    p.name ≠ q.name ∧
    (executeCommand cfg (executeCommand cfg st X ctx args now).state X ctx args
      now2).invoked = some p.name := by
  obtain ⟨cmd, hcmd⟩ := Option.isSome_iff_exists.mp hpX
  have hnames : st.plugins.map (fun r => r.name) =
      l1.map (fun r => r.name) ++ p.name ::
        (l2.map (fun r => r.name) ++ q.name :: l3.map (fun r => r.name)) := by
    simp [hsplit]
  have hpq : p.name ≠ q.name := by
    have h2 : (p.name :: (l2.map (fun r => r.name) ++ q.name ::
        l3.map (fun r => r.name))).Nodup :=
      (List.nodup_append.mp (hnames ▸ hnd)).2.1
    have h3 := (List.nodup_cons.mp h2).1
    intro he
    exact h3 (by simp [he])
    -- q.name is in the tail, so the names differ
  have h1 := executeCommand_pos cfg st X ctx args now hinit hen
  rw [h1, hsplit, execLoop_split_hit X ctx args cfg.timeout now l1 (l2 ++ q :: l3)
    p cmd hfirst hpa hcmd]
  refine ⟨rfl, hpq, ?_⟩
  have hinit2 : (ManagerState.mk (l1 ++ (dispatchOn p cmd ctx args cfg.timeout now).1 ::
      (l2 ++ q :: l3)) true).initialized = true := rfl
  rw [executeCommand_pos cfg _ X ctx args now2 hinit2 hen]
  have hfe : cmdGet (dispatchOn p cmd ctx args cfg.timeout now).1.commands X =
      some cmd := by rw [dispatchOn_commands]; exact hcmd
  have hae : (dispatchOn p cmd ctx args cfg.timeout now).1.active = true := by
    rw [dispatchOn_active]; exact hpa
  rw [execLoop_split_hit X ctx args cfg.timeout now2 l1 (l2 ++ q :: l3)
    (dispatchOn p cmd ctx args cfg.timeout now).1 cmd hfirst hae hfe]
  simp [dispatchOn_name]

/-- C4 counterexample: the plugin behind entry X declares a per-call
timeout override of 5 ms and its handler fulfils after 50 ms; racing
against the override would time out, yet executeCommand reports
success, because the manager always races against its own configured
timeout (100 ms here) and never consults the override. -/
theorem executeCommand_cex_timeout_override :
    (executeCommand cfg100 ⟨[freshEntry pluginX], true⟩ "x" ctxOk [] 0).handled = true ∧
    specEffectiveTimeout pluginX.timeoutOverride cfg100.timeout = 5 ∧
    race (.settles 50 true) (specEffectiveTimeout pluginX.timeoutOverride cfg100.timeout) =
      .timedOut ∧
    race (.settles 50 true) cfg100.timeout = .resolved 50 :=
  ⟨rfl, rfl, rfl, rfl⟩

/-- C4 amended: for every dispatched command the handler is raced
against the manager's configured timeout, and the reported outcome is
determined by whichever of handler completion or timeout expiry settles
first; the plugin's declared per-call timeout override is ignored, so
replacing it by any other value leaves the outcome unchanged. -/
theorem executeCommand_uses_manager_timeout (cfg : PluginsConfig)
    (st : ManagerState) (X : String) (ctx : BotContext) (args : List String)
    (now : Nat) (hinit : st.initialized = true) (hen : cfg.enabled = true)
    (l1 l2 : List LoadedPlugin) (p : LoadedPlugin) (cmd : PluginCommand)
    (hsplit : st.plugins = l1 ++ p :: l2)
    (hfirst : ∀ r ∈ l1, activeOwner X r = false)
    (hpa : p.active = true) (hc : cmdGet p.commands X = some cmd) :
    (executeCommand cfg st X ctx args now).handled =
      raceSuccess (cmd.behavior ctx args) cfg.timeout ∧
    ∀ o : Option Nat,
      (executeCommand cfg ⟨l1 ++ withOverride p o :: l2, st.initialized⟩ X ctx args
        now).handled = raceSuccess (cmd.behavior ctx args) cfg.timeout := by
  constructor
  · rw [executeCommand_pos cfg st X ctx args now hinit hen, hsplit,
      execLoop_split_hit X ctx args cfg.timeout now l1 l2 p cmd hfirst hpa hc]
    exact dispatchOn_handled p cmd ctx args cfg.timeout now
  · intro o
    have hinit2 : (ManagerState.mk (l1 ++ withOverride p o :: l2)
        st.initialized).initialized = true := hinit
    rw [executeCommand_pos cfg _ X ctx args now hinit2 hen,
      execLoop_split_hit X ctx args cfg.timeout now l1 l2 (withOverride p o) cmd
        hfirst hpa hc]
    exact dispatchOn_handled (withOverride p o) cmd ctx args cfg.timeout now

/-- C5 counterexample: when the configured plugin directory exists but
contains no plugin subfolders (readdirSync succeeds with an empty
listing), initialize registers nothing at all, not a demo plugin, and a
subsequent executeCommand for the demo command returns false. -/
theorem initializeManager_cex_empty_dir :
    (initializeManager cfg100 loaderNone (some []) ⟨[], false⟩).plugins = [] ∧
    executeCommand cfg100 (initializeManager cfg100 loaderNone (some []) ⟨[], false⟩)
        "demo" ctxOk ["hello"] 0 =
      ⟨false, initializeManager cfg100 loaderNone (some []) ⟨[], false⟩, none, none⟩ :=
  ⟨rfl, rfl⟩

/-- C5 amended: when the configured plugin directory does not exist,
initialize registers exactly one built-in demo plugin, and afterwards
executeCommand on the demo command (with a transport whose reply
fulfils within the timeout) returns true and increments that plugin's
executions counter to 1. -/
theorem initializeManager_missing_dir_demo (cfg : PluginsConfig)
    (loader : String → Option PluginInterface) (ctx : BotContext) (now r : Nat)
    (hen : cfg.enabled = true) (hreply : ctx.replyBehavior = .settles r true)
    (hr : r < cfg.timeout) :
    ((initializeManager cfg loader none ⟨[], false⟩).plugins).map (fun p => p.name) =
      ["Demo Plugin"] ∧
    (executeCommand cfg (initializeManager cfg loader none ⟨[], false⟩) "demo" ctx
      ["hello"] now).handled = true ∧
    ∃ p1, getPlugin (executeCommand cfg (initializeManager cfg loader none ⟨[], false⟩)
        "demo" ctx ["hello"] now).state "Demo Plugin" = some p1 ∧
      p1.stats.executions = 1 := by
  have hst : initializeManager cfg loader none ⟨[], false⟩ =
      ⟨[freshEntry demoPlugin], true⟩ := by
    simp [initializeManager, hen, discoverPlugins, createBasicDemoPlugin,
      registerPlugin]
  rw [hst]
  have hcmd : cmdGet (freshEntry demoPlugin).commands "demo" =
      some ⟨"demo", "Demo plugin command", "/demo [message]",
        fun c _args => c.replyBehavior⟩ := rfl
  have hrace : race ((PluginCommand.mk "demo" "Demo plugin command" "/demo [message]"
      (fun c _args => c.replyBehavior)).behavior ctx ["hello"]) cfg.timeout =
      .resolved r := by
    show race ctx.replyBehavior cfg.timeout = .resolved r
    rw [hreply]
    simp [race, hr]
  rw [executeCommand_pos cfg ⟨[freshEntry demoPlugin], true⟩ "demo" ctx ["hello"]
      now rfl hen,
    execLoop_cons_hit "demo" ctx ["hello"] cfg.timeout now (freshEntry demoPlugin)
      [] _ rfl hcmd]
  refine ⟨rfl, ?_, ?_⟩
  · simp [dispatchOn, hrace]
  · refine ⟨(dispatchOn (freshEntry demoPlugin)
      ⟨"demo", "Demo plugin command", "/demo [message]",
        fun c _args => c.replyBehavior⟩ ctx ["hello"] cfg.timeout now).1, ?_, ?_⟩
    · show List.find? _ (_ :: []) = _
      rw [List.find?_cons]
      have hn : (dispatchOn (freshEntry demoPlugin)
          (PluginCommand.mk "demo" "Demo plugin command" "/demo [message]"
            (fun c _args => c.replyBehavior)) ctx ["hello"] cfg.timeout
          now).1.name = "Demo Plugin" := dispatchOn_name _ _ _ _ _ _
      simp [hn]
    · simp [dispatchOn, hrace, freshEntry]

/-- C6 counterexample: a handler that settles (by rejecting) at 0 ms,
strictly before the 100 ms timeout, is reported as a failure, and the
plugin's totalExecutionTime does not strictly increase across the call
(it stays 0). -/
theorem executeCommand_cex_reject_before_timeout :
    (0 : Nat) < cfg100.timeout ∧
    (executeCommand cfg100 ⟨[freshEntry pluginRej], true⟩ "r" ctxOk [] 0).handled =
      false ∧
    (∃ p1, getPlugin (executeCommand cfg100 ⟨[freshEntry pluginRej], true⟩ "r" ctxOk
        [] 0).state "R" = some p1 ∧
      p1.stats.totalExecutionTime = 0 ∧ p1.stats.errors = 1) ∧
    (freshEntry pluginRej).stats.totalExecutionTime = 0 :=
  ⟨by decide, rfl, ⟨_, rfl, rfl, rfl⟩, rfl⟩

/-- C6 amended: for every dispatched command, a handler that fulfils
strictly before the timeout is reported as success; one that rejects
before the timeout, settles at or after the timeout, or never settles,
is reported as failure; and in all cases the plugin's
totalExecutionTime increases by the observed elapsed time, strictly
whenever that elapsed time is positive. -/
theorem executeCommand_timeout_boundary (cfg : PluginsConfig) (st : ManagerState)
    (X : String) (ctx : BotContext) (args : List String) (now : Nat)
    (hinit : st.initialized = true) (hen : cfg.enabled = true)
    (hnd : (st.plugins.map (fun q => q.name)).Nodup)
    (l1 l2 : List LoadedPlugin) (p : LoadedPlugin) (cmd : PluginCommand)
    (hsplit : st.plugins = l1 ++ p :: l2)
    (hfirst : ∀ r ∈ l1, activeOwner X r = false)
    (hpa : p.active = true) (hc : cmdGet p.commands X = some cmd) :
    (∀ t, cmd.behavior ctx args = .settles t true → t < cfg.timeout →
      (executeCommand cfg st X ctx args now).handled = true) ∧
    (∀ t b, cmd.behavior ctx args = .settles t b → cfg.timeout ≤ t →
      (executeCommand cfg st X ctx args now).handled = false) ∧
    (cmd.behavior ctx args = .never →
      (executeCommand cfg st X ctx args now).handled = false) ∧
    (∀ t, cmd.behavior ctx args = .settles t false → t < cfg.timeout →
      (executeCommand cfg st X ctx args now).handled = false) ∧
    (∃ e p1, (executeCommand cfg st X ctx args now).elapsed = some e ∧
      getPlugin (executeCommand cfg st X ctx args now).state p.name = some p1 ∧
      p1.stats.totalExecutionTime = p.stats.totalExecutionTime + e ∧
      (0 < e → p.stats.totalExecutionTime < p1.stats.totalExecutionTime)) := by
  have hnotmem : p.name ∉ l1.map (fun q => q.name) := by
    have h2 : (l1.map (fun q => q.name) ++ p.name :: l2.map (fun q => q.name)).Nodup := by
      have heq : st.plugins.map (fun q => q.name) =
          l1.map (fun q => q.name) ++ p.name :: l2.map (fun q => q.name) := by
        simp [hsplit]
      exact heq ▸ hnd
    exact notmem_of_nodup_split _ _ _ h2
  rw [executeCommand_pos cfg st X ctx args now hinit hen, hsplit,
    execLoop_split_hit X ctx args cfg.timeout now l1 l2 p cmd hfirst hpa hc]
  refine ⟨?_, ?_, ?_, ?_, ?_⟩
  · intro t hb ht
    rw [dispatchOn_handled, raceSuccess, hb]
    simp [race, ht]
  · intro t b hb ht
    rw [dispatchOn_handled, raceSuccess, hb]
    simp [race, Nat.not_lt.mpr ht]
  · intro hb
    rw [dispatchOn_handled, raceSuccess, hb]
    simp [race]
  · intro t hb ht
    rw [dispatchOn_handled, raceSuccess, hb]
    simp [race, ht]
  · refine ⟨raceElapsed (cmd.behavior ctx args) cfg.timeout,
      (dispatchOn p cmd ctx args cfg.timeout now).1, ?_, ?_, ?_, ?_⟩
    · simp [dispatchOn_elapsed]
    · show List.find? _ _ = _
      have hn : (dispatchOn p cmd ctx args cfg.timeout now).1.name = p.name :=
        dispatchOn_name p cmd ctx args cfg.timeout now
      rw [← hn]
      exact find?_name_split l1 (dispatchOn p cmd ctx args cfg.timeout now).1 l2
        (by rw [hn]; exact hnotmem)
    · rw [dispatchOn_stats]
    · intro he
      rw [dispatchOn_stats]
      simp only
      omega

lemma map_name_replace (entry : LoadedPlugin) :
    ∀ plugins : List LoadedPlugin,
      (plugins.map (fun q => if q.name = entry.name then entry else q)).map
          (fun q => q.name) =
        plugins.map (fun q => q.name)
  | [] => rfl
  | p :: rest => by
      by_cases h : p.name = entry.name <;>
        simp [h, map_name_replace entry rest]

lemma registerPlugin_names (plugins : List LoadedPlugin) (entry : LoadedPlugin) :
    (registerPlugin plugins entry).map (fun q => q.name) =
      if plugins.any (fun q => q.name = entry.name) then
        plugins.map (fun q => q.name)
      else plugins.map (fun q => q.name) ++ [entry.name] := by
  by_cases h : plugins.any (fun q => q.name = entry.name)
  · simp only [registerPlugin, if_pos h]
    rw [map_name_replace]
  · simp only [registerPlugin, if_neg h]
    simp [h]

lemma registerPlugin_nodup (plugins : List LoadedPlugin) (entry : LoadedPlugin)
    (hnd : (plugins.map (fun q => q.name)).Nodup) :
    ((registerPlugin plugins entry).map (fun q => q.name)).Nodup := by
  rw [registerPlugin_names]
  by_cases h : plugins.any (fun q => q.name = entry.name)
  · simpa [h] using hnd
  · have hnm : entry.name ∉ plugins.map (fun q => q.name) := by
      intro hm
      rw [List.mem_map] at hm
      obtain ⟨q, hq, hqn⟩ := hm
      rw [List.any_eq_true] at h
      exact h ⟨q, hq, by simp [hqn]⟩
    simp [h, List.nodup_append, hnd, hnm]

lemma loadPlugin_nodup (loader : String → Option PluginInterface)
    (plugins : List LoadedPlugin) (d : String)
    (hnd : (plugins.map (fun q => q.name)).Nodup) :
    ((loadPlugin loader plugins d).map (fun q => q.name)).Nodup := by
  rw [loadPlugin]
  cases loader d with
  | none => exact hnd
  | some pi => exact registerPlugin_nodup plugins (freshEntry pi) hnd

lemma find?_replace (entry : LoadedPlugin) :
    ∀ plugins : List LoadedPlugin,
      plugins.any (fun q => q.name = entry.name) = true →
      (plugins.map (fun q => if q.name = entry.name then entry else q)).find?
          (fun q => q.name = entry.name) = some entry
  | [], h => absurd h (by simp)
  | p :: rest, h => by
      by_cases hp : p.name = entry.name
      · simp [List.find?_cons, hp]
      · have hrest : rest.any (fun q => q.name = entry.name) = true := by
          rcases (by simpa using h : p.name = entry.name ∨
              rest.any (fun q => q.name = entry.name) = true) with hc | hc
          · exact absurd hc hp
          · exact hc
        simp [List.find?_cons, hp, find?_replace entry rest hrest]

/-- C10: the registry holds at most one entry per plugin name across
every sequence of plugin loads, and loading a candidate whose getName
equals the name of an already-registered plugin silently replaces that
entry wholesale (new instance, rebuilt command table, active, zeroed
stats, no lastUsed) without being rejected and without touching other
entries or the registry size. -/
theorem loadPlugin_replace_same_name :
    (∀ (loader : String → Option PluginInterface) (plugins : List LoadedPlugin)
        (dirs : List String), (plugins.map (fun q => q.name)).Nodup →
      ((dirs.foldl (loadPlugin loader) plugins).map (fun q => q.name)).Nodup) ∧
    (∀ (loader : String → Option PluginInterface) (plugins : List LoadedPlugin)
        (d : String) (pi : PluginInterface), loader d = some pi →
      plugins.any (fun q => q.name = pi.getName) = true →
      (loadPlugin loader plugins d).length = plugins.length ∧
      (loadPlugin loader plugins d).find? (fun q => q.name = pi.getName) =
        some (freshEntry pi) ∧
      (freshEntry pi).plugin = pi ∧
      (freshEntry pi).commands = buildCommandTable pi.getCommands ∧
      (freshEntry pi).active = true ∧
      (freshEntry pi).stats = ⟨0, 0, 0⟩ ∧
      (freshEntry pi).lastUsed = none ∧
      ∀ q ∈ plugins, q.name ≠ pi.getName → q ∈ loadPlugin loader plugins d) := by
  constructor
  · intro loader plugins dirs
    induction dirs generalizing plugins with
    | nil => exact fun h => h
    | cons d dirs ih =>
        intro h
        exact ih (loadPlugin loader plugins d) (loadPlugin_nodup loader plugins d h)
  · intro loader plugins d pi hld hany
    have hname : (freshEntry pi).name = pi.getName := rfl
    rw [loadPlugin, hld]
    have hany2 : plugins.any (fun q => q.name = (freshEntry pi).name) = true := hany
    refine ⟨?_, ?_, rfl, rfl, rfl, rfl, rfl, ?_⟩
    · simp [registerPlugin, hany2]
    · simp only [registerPlugin, if_pos hany2]
      exact find?_replace (freshEntry pi) plugins hany
    · intro q hq hqn
      simp only [registerPlugin, if_pos hany2]
      rw [List.mem_map]
      exact ⟨q, hq, by
        rw [if_neg (show ¬q.name = (freshEntry pi).name from
          fun hcontra => hqn hcontra)]⟩

/-- C8: whenever every loaded plugin's optional cleanup settles,
shutdown resolves with an empty registry (getPluginStats returns the
empty list) and a cleared initialized flag, the cleanup hook is invoked
for every loaded plugin (active or not) that defines one, every
per-plugin cleanup attempt settles successfully even when the cleanup
rejects, and a subsequent executeCommand returns false without
throwing and without touching the emptied registry. -/
theorem shutdown_completeness :
    ∀ st : ManagerState, (∀ p ∈ st.plugins, p.plugin.cleanup ≠ some .never) →
      ∃ st1 tr, shutdown st = some (st1, tr) ∧
        st1.plugins = [] ∧ st1.initialized = false ∧ getPluginStats st1 = [] ∧
        tr = (st.plugins.filter (fun p => p.plugin.cleanup.isSome)).map
          (fun p => p.name) ∧
        (∀ p ∈ st.plugins, shutdownPlugin p = some ()) ∧
        (∀ (cfg : PluginsConfig) (cn : String) (ctx : BotContext)
            (args : List String) (now : Nat),
          executeCommand cfg st1 cn ctx args now = ⟨false, st1, none, none⟩) := by
  intro st h
  have hsp : ∀ p ∈ st.plugins, shutdownPlugin p = some () := by
    intro p hp
    rw [shutdownPlugin, cleanupBody]
    cases hcl : p.plugin.cleanup with
    | none => rfl
    | some b =>
        cases b with
        | settles t ok => cases ok <;> rfl
        | never => exact absurd hcl (h p hp)
  have hall : (st.plugins.map shutdownPlugin).all (fun r => r.isSome) = true := by
    rw [List.all_eq_true]
    intro r hr
    rw [List.mem_map] at hr
    obtain ⟨p, hp, hpr⟩ := hr
    rw [← hpr, hsp p hp]
    rfl
  refine ⟨⟨[], false⟩, _, ?_, rfl, rfl, rfl, rfl, hsp, ?_⟩
  · rw [shutdown, if_pos hall]
  · intro cfg cn ctx args now
    exact executeCommand_guard cfg ⟨[], false⟩ cn ctx args now (Or.inl rfl)

lemma updateEntry_names (f : LoadedPlugin → LoadedPlugin)
    (hf : ∀ x, (f x).name = x.name) (n : String) :
    ∀ l : List LoadedPlugin,
      (updateEntry l n f).map (fun q => q.name) = l.map (fun q => q.name)
  | [] => rfl
  | p :: rest => by
      rw [updateEntry]
      by_cases h : p.name = n <;>
        simp [h, hf, updateEntry_names f hf n rest]

lemma mem_updateEntry (f : LoadedPlugin → LoadedPlugin) (n : String) :
    ∀ l : List LoadedPlugin, ∀ q ∈ updateEntry l n f,
      q ∈ l ∨ ∃ q0 ∈ l, q0.name = n ∧ q = f q0
  | [], q, hq => absurd hq (by simp [updateEntry])
  | p :: rest, q, hq => by
      rw [updateEntry] at hq
      by_cases h : p.name = n
      · rw [if_pos h] at hq
        rcases (by simpa using hq : q = f p ∨ q ∈ rest) with hc | hc
        · exact Or.inr ⟨p, by simp, h, hc⟩
        · exact Or.inl (by simp [hc])
      · rw [if_neg h] at hq
        rcases (by simpa using hq : q = p ∨ q ∈ updateEntry rest n f) with hc | hc
        · exact Or.inl (by simp [hc])
        · rcases mem_updateEntry f n rest q hc with hm | ⟨q0, hq0, hq0n, hq0e⟩
          · exact Or.inl (by simp [hm])
          · exact Or.inr ⟨q0, by simp [hq0], hq0n, hq0e⟩

lemma updateEntry_name_entry (f : LoadedPlugin → LoadedPlugin) (n : String) :
    ∀ l : List LoadedPlugin, (l.map (fun q => q.name)).Nodup →
      ∀ q ∈ updateEntry l n f, q.name = n →
        ∃ q0 ∈ l, q0.name = n ∧ q = f q0
  | [], _, q, hq, _ => absurd hq (by simp [updateEntry])
  | p :: rest, hnd, q, hq, hqn => by
      have hnm : p.name ∉ rest.map (fun r => r.name) :=
        (List.nodup_cons.mp (by simpa using hnd)).1
      have hnd2 : (rest.map (fun r => r.name)).Nodup :=
        (List.nodup_cons.mp (by simpa using hnd)).2
      rw [updateEntry] at hq
      by_cases h : p.name = n
      · rw [if_pos h] at hq
        rcases (by simpa using hq : q = f p ∨ q ∈ rest) with hc | hc
        · exact ⟨p, by simp, h, hc⟩
        · exact absurd (by
              rw [List.mem_map]
              exact ⟨q, hc, hqn.trans h.symm⟩) hnm
      · rw [if_neg h] at hq
        rcases (by simpa using hq : q = p ∨ q ∈ updateEntry rest n f) with hc | hc
        · exact absurd (hc ▸ hqn) h
        · obtain ⟨q0, hq0, hq0n, hq0e⟩ :=
            updateEntry_name_entry f n rest hnd2 q hc hqn
          exact ⟨q0, by simp [hq0], hq0n, hq0e⟩

lemma updateEntry_comp (f g : LoadedPlugin → LoadedPlugin)
    (hf : ∀ x, (f x).name = x.name) (n : String) :
    ∀ l : List LoadedPlugin,
      updateEntry (updateEntry l n f) n g = updateEntry l n (fun x => g (f x))
  | [] => rfl
  | p :: rest => by
      by_cases h : p.name = n
      · simp [updateEntry, h, hf]
      · simp [updateEntry, h, updateEntry_comp f g hf n rest]

lemma updateEntry_id (f : LoadedPlugin → LoadedPlugin) (n : String) :
    ∀ l : List LoadedPlugin, ∀ p0, l.find? (fun q => q.name = n) = some p0 →
      f p0 = p0 → updateEntry l n f = l
  | [], p0, hfind, _ => absurd hfind (by simp)
  | p :: rest, p0, hfind, hfp => by
      rw [List.find?_cons] at hfind
      by_cases h : p.name = n
      · rw [updateEntry, if_pos h]
        have : p0 = p := by
          rw [decide_eq_true h] at hfind
          exact (Option.some.inj hfind).symm
        rw [← this, hfp]
      · rw [updateEntry, if_neg h]
        rw [decide_eq_false h] at hfind
        rw [updateEntry_id f n rest p0 hfind hfp]

lemma find?_name_of_mem :
    ∀ l : List LoadedPlugin, (l.map (fun q => q.name)).Nodup →
      ∀ q ∈ l, l.find? (fun r => r.name = q.name) = some q
  | [], _, q, hq => absurd hq (by simp)
  | p :: rest, hnd, q, hq => by
      have hnm : p.name ∉ rest.map (fun r => r.name) :=
        (List.nodup_cons.mp (by simpa using hnd)).1
      have hnd2 : (rest.map (fun r => r.name)).Nodup :=
        (List.nodup_cons.mp (by simpa using hnd)).2
      rcases (by simpa using hq : q = p ∨ q ∈ rest) with hc | hc
      · simp [List.find?_cons, hc]
      · have hne : p.name ≠ q.name := by
          intro he
          exact hnm (by
            rw [List.mem_map]
            exact ⟨q, hc, he.symm⟩)
        simp [List.find?_cons, hne, find?_name_of_mem rest hnd2 q hc]

lemma any_name_eq (n : String) :
    ∀ l : List LoadedPlugin,
      l.any (fun q => q.name = n) =
        (l.map (fun q => q.name)).any (fun s => decide (s = n))
  | [] => rfl
  | p :: rest => by simp [any_name_eq n rest]

lemma mem_availFold (pr : String × PluginCommand) :
    ∀ l : List LoadedPlugin,
      pr ∈ l.foldr (fun p acc => p.commands.map (fun c => (p.name, c)) ++ acc) [] ↔
        ∃ q ∈ l, ∃ c ∈ q.commands, pr = (q.name, c)
  | [] => by simp
  | p :: rest => by
      simp only [List.foldr_cons, List.mem_append, List.mem_map,
        mem_availFold pr rest, List.mem_cons]
      constructor
      · rintro (⟨c, hc, he⟩ | ⟨q, hq, c, hc, he⟩)
        · exact ⟨p, Or.inl rfl, c, hc, he.symm⟩
        · exact ⟨q, Or.inr hq, c, hc, he⟩
      · rintro ⟨q, hq | hq, c, hc, he⟩
        · subst hq
          exact Or.inl ⟨c, hc, he.symm⟩
        · exact Or.inr ⟨q, hq, c, hc, he⟩

lemma mem_getAvailableCommands (s : ManagerState) (pr : String × PluginCommand) :
    pr ∈ getAvailableCommands s ↔
      ∃ q ∈ s.plugins, q.active = true ∧ ∃ c ∈ q.commands, pr = (q.name, c) := by
  rw [getAvailableCommands, mem_availFold]
  constructor
  · rintro ⟨q, hq, c, hc, he⟩
    rw [List.mem_filter] at hq
    exact ⟨q, hq.1, by simpa using hq.2, c, hc, he⟩
  · rintro ⟨q, hq, hqa, c, hc, he⟩
    exact ⟨q, List.mem_filter.mpr ⟨hq, by simp [hqa]⟩, c, hc, he⟩

/-- C7: deactivating a loaded plugin excludes it from command dispatch,
event broadcast, getAvailableCommands and hasCommand (for commands only
it owns); re-activating restores the very same registry entry without
reloading; the toggle changes nothing but the active flag and calls no
plugin hook, and it returns false exactly when the plugin name is
unknown. -/
theorem setPluginActive_inactive_exclusion (st : ManagerState) (pn : String)
    (p : LoadedPlugin) (hnd : (st.plugins.map (fun q => q.name)).Nodup)
    (hp : getPlugin st pn = some p) :
    (setPluginActive st pn false).1 = true ∧
    (∀ (s : ManagerState) (n : String) (b : Bool), getPlugin s n = none →
      setPluginActive s n b = (false, s)) ∧
    (∀ (s : ManagerState) (n : String) (b : Bool),
      (setPluginActive s n b).1 = (getPlugin s n).isSome) ∧
    (∀ (cfg : PluginsConfig) (X : String) (ctx : BotContext) (args : List String)
        (now : Nat),
      (executeCommand cfg (setPluginActive st pn false).2 X ctx args now).invoked ≠
        some pn) ∧
    (∀ (cfg : PluginsConfig) (e : PluginEvent) (res : BroadcastResult),
      broadcastEvent cfg (setPluginActive st pn false).2 e = Except.ok res →
      ∀ x ∈ res.invocations, x.1 ≠ pn) ∧
    (∀ pr ∈ getAvailableCommands (setPluginActive st pn false).2, pr.1 ≠ pn) ∧
    (∀ X, ownsCmd p X = true →
      (∀ q ∈ st.plugins, q.name ≠ pn → ownsCmd q X = false) →
      hasCommand (setPluginActive st pn false).2 X = false) ∧
    (p.active = true →
      (setPluginActive (setPluginActive st pn false).2 pn true).2 = st) ∧
    (∀ q1 ∈ (setPluginActive st pn false).2.plugins, ∃ q ∈ st.plugins,
      q1.name = q.name ∧ q1.version = q.version ∧ q1.plugin = q.plugin ∧
      q1.commands = q.commands ∧ q1.stats = q.stats ∧ q1.lastUsed = q.lastUsed) := by
  have hpmem : p ∈ st.plugins := List.mem_of_find?_eq_some hp
  have hpname : p.name = pn := by
    have := List.find?_some hp
    simpa using this
  have hany : st.plugins.any (fun q => q.name = pn) = true := by
    rw [List.any_eq_true]
    exact ⟨p, hpmem, by simp [hpname]⟩
  have hst1 : (setPluginActive st pn false).2 =
      ⟨updateEntry st.plugins pn (fun q => { q with active := false }),
        st.initialized⟩ := by
    rw [setPluginActive, if_pos hany]
  have hnames1 : ((setPluginActive st pn false).2.plugins).map (fun q => q.name) =
      st.plugins.map (fun q => q.name) := by
    rw [hst1]
    exact updateEntry_names (fun q => { q with active := false }) (fun x => rfl) pn
      st.plugins
  have hnd1 : (((setPluginActive st pn false).2.plugins).map
      (fun q => q.name)).Nodup := by rw [hnames1]; exact hnd
  have hinactive : ∀ q ∈ (setPluginActive st pn false).2.plugins, q.name = pn →
      q.active = false := by
    intro q hq hqn
    rw [hst1] at hq
    obtain ⟨q0, -, -, hq0e⟩ := updateEntry_name_entry
      (fun x => { x with active := false }) pn st.plugins hnd q hq hqn
    rw [hq0e]
  refine ⟨by rw [setPluginActive, if_pos hany], ?_, ?_, ?_, ?_, ?_, ?_, ?_, ?_⟩
  · intro s n b hnone
    have : s.plugins.any (fun q => q.name = n) = false := by
      rw [getPlugin, List.find?_eq_none] at hnone
      rw [List.any_eq_false]
      intro q hq
      simpa using hnone q hq
    rw [setPluginActive, this]
    rfl
  · intro s n b
    rw [setPluginActive, getPlugin]
    cases hf : s.plugins.find? (fun q => q.name = n) with
    | none =>
        have : s.plugins.any (fun q => q.name = n) = false := by
          rw [List.find?_eq_none] at hf
          rw [List.any_eq_false]
          intro q hq
          simpa using hf q hq
        simp [this]
    | some q =>
        have : s.plugins.any (fun q => q.name = n) = true := by
          rw [List.any_eq_true]
          refine ⟨q, List.mem_of_find?_eq_some hf, ?_⟩
          have h2 := List.find?_some hf
          simpa using h2
        simp [this]
  · intro cfg X ctx args now hcontra
    obtain ⟨hinit1, hen⟩ := executeCommand_invoked_pos cfg _ X ctx args now pn hcontra
    rw [executeCommand_pos cfg _ X ctx args now hinit1 hen, execLoop_invoked] at hcontra
    cases hf : ((setPluginActive st pn false).2.plugins).find? (activeOwner X) with
    | none => rw [hf] at hcontra; exact absurd hcontra (by simp)
    | some w =>
        rw [hf] at hcontra
        have hwn : w.name = pn := by simpa using hcontra
        have hwmem : w ∈ (setPluginActive st pn false).2.plugins :=
          List.mem_of_find?_eq_some hf
        have hwa : w.active = true := by
          have h2 := List.find?_some hf
          simp only [activeOwner, Bool.and_eq_true] at h2
          exact h2.1
        rw [hinactive w hwmem hwn] at hwa
        exact absurd hwa (by simp)
  · intro cfg e res hres x hx
    intro hx1
    cases hi : (setPluginActive st pn false).2.initialized with
    | false =>
        rw [broadcastEvent_guard cfg _ e (Or.inl hi)] at hres
        have : res.invocations = [] := by
          have := Except.ok.inj hres
          rw [← this]
        rw [this] at hx
        exact absurd hx (by simp)
    | true =>
        cases he : cfg.enabled with
        | false =>
            rw [broadcastEvent_guard cfg _ e (Or.inr he)] at hres
            have : res.invocations = [] := by
              have := Except.ok.inj hres
              rw [← this]
            rw [this] at hx
            exact absurd hx (by simp)
        | true =>
            rw [broadcastEvent_pos cfg _ e hi he] at hres
            have hres2 := Except.ok.inj hres
            rw [← hres2] at hx
            simp only [List.mem_map] at hx
            obtain ⟨w, hw, hwx⟩ := hx
            rw [List.mem_filter] at hw
            have hwn : w.name = pn := by rw [← hwx] at hx1; exact hx1
            have hwa := hinactive w hw.1 hwn
            rw [hwa] at hw
            exact absurd hw.2 (by simp)
  · intro pr hpr
    rw [mem_getAvailableCommands] at hpr
    obtain ⟨q, hq, hqa, c, -, he⟩ := hpr
    intro hpr1
    have hqn : q.name = pn := by rw [he] at hpr1; exact hpr1
    rw [hinactive q hq hqn] at hqa
    exact absurd hqa (by simp)
  · intro X hown hothers
    cases hh : hasCommand (setPluginActive st pn false).2 X with
    | false => rfl
    | true =>
        rw [hasCommand, List.any_eq_true] at hh
        obtain ⟨q, hq, hqp⟩ := hh
        have hqp2 : q.active = true ∧ (cmdGet q.commands X).isSome = true := by
          simpa using hqp
        have hqa : q.active = true := hqp2.1
        have hqo : ownsCmd q X = true := hqp2.2
        by_cases hqn : q.name = pn
        · rw [hinactive q hq hqn] at hqa
          exact absurd hqa (by simp)
        · have hqmem : q ∈ st.plugins := by
            rw [hst1] at hq
            rcases mem_updateEntry (fun x => { x with active := false }) pn
              st.plugins q hq with hm | ⟨q0, -, hq0n, hq0e⟩
            · exact hm
            · exact absurd (by rw [hq0e]; exact hq0n) hqn
          rw [hothers q hqmem hqn] at hqo
          exact absurd hqo (by simp)
  · intro hpa
    have hany1 : ((setPluginActive st pn false).2.plugins).any
        (fun q => q.name = pn) = true := by
      rw [any_name_eq, hnames1, ← any_name_eq]
      exact hany
    rw [setPluginActive, if_pos hany1]
    simp only [hst1]
    rw [updateEntry_comp (fun q => { q with active := false })
      (fun q => { q with active := true }) (fun x => rfl) pn st.plugins]
    have hid : updateEntry st.plugins pn
        (fun x => { { x with active := false } with active := true }) =
        st.plugins := by
      refine updateEntry_id _ pn st.plugins p hp ?_
      cases p with
      | mk n v pl cs act lu stt =>
          simp only at hpa ⊢
          rw [hpa]
    rw [hid]
  · intro q1 hq1
    rw [hst1] at hq1
    rcases mem_updateEntry (fun x => { x with active := false }) pn st.plugins
      q1 hq1 with hm | ⟨q0, hq0, -, hq0e⟩
    · exact ⟨q1, hm, rfl, rfl, rfl, rfl, rfl, rfl⟩
    · exact ⟨q0, hq0, by rw [hq0e], by rw [hq0e], by rw [hq0e], by rw [hq0e],
        by rw [hq0e], by rw [hq0e]⟩

lemma succCount_cons (pn : String) (r : CallRec) (tr : List CallRec) :
    succCount pn (r :: tr) =
      (if r.invoked = some pn ∧ r.handled = true then 1 else 0) + succCount pn tr := by
  by_cases h : r.invoked = some pn ∧ r.handled = true <;>
    simp [succCount, List.filter_cons, h, Nat.add_comm]

lemma errCount_cons (pn : String) (r : CallRec) (tr : List CallRec) :
    errCount pn (r :: tr) =
      (if r.invoked = some pn ∧ r.handled = false then 1 else 0) + errCount pn tr := by
  by_cases h : r.invoked = some pn ∧ r.handled = false <;>
    simp [errCount, List.filter_cons, h, Nat.add_comm]

lemma elapsedSum_cons (pn : String) (r : CallRec) (tr : List CallRec) :
    elapsedSum pn (r :: tr) =
      (if r.invoked = some pn then r.elapsed.getD 0 else 0) + elapsedSum pn tr := by
  by_cases h : r.invoked = some pn <;>
    simp [elapsedSum, List.filter_cons, h]

lemma runCalls_cons (cfg : PluginsConfig) (st : ManagerState) (cn : String)
    (ctx : BotContext) (args : List String) (now : Nat)
    (rest : List (String × BotContext × List String × Nat)) :
    runCalls cfg st ((cn, ctx, args, now) :: rest) =
      ((runCalls cfg (executeCommand cfg st cn ctx args now).state rest).1,
       ⟨(executeCommand cfg st cn ctx args now).handled,
        (executeCommand cfg st cn ctx args now).invoked,
        (executeCommand cfg st cn ctx args now).elapsed⟩ ::
       (runCalls cfg (executeCommand cfg st cn ctx args now).state rest).2) := rfl

lemma runCalls_stats (cfg : PluginsConfig) (hen : cfg.enabled = true) (pn : String) :
    ∀ (calls : List (String × BotContext × List String × Nat)) (st : ManagerState)
      (p : LoadedPlugin), st.initialized = true →
      (st.plugins.map (fun q => q.name)).Nodup →
      getPlugin st pn = some p →
      ∃ p1, getPlugin (runCalls cfg st calls).1 pn = some p1 ∧
        p1.stats.executions =
          p.stats.executions + succCount pn (runCalls cfg st calls).2 ∧
        p1.stats.errors = p.stats.errors + errCount pn (runCalls cfg st calls).2 ∧
        p1.stats.totalExecutionTime =
          p.stats.totalExecutionTime + elapsedSum pn (runCalls cfg st calls).2
  | [], st, p, _, _, hp =>
      ⟨p, by simp [runCalls, hp, succCount, errCount, elapsedSum]⟩
  | (cn, ctx, args, now) :: rest, st, p, hinit, hnd, hp => by
      rw [runCalls_cons]
      have hinit2 : (executeCommand cfg st cn ctx args now).state.initialized = true := by
        rw [executeCommand_pos cfg st cn ctx args now hinit hen]
      have hnd2 : ((executeCommand cfg st cn ctx args now).state.plugins.map
          (fun q => q.name)).Nodup := by
        rw [executeCommand_names cfg st cn ctx args now]
        exact hnd
      by_cases hin : (executeCommand cfg st cn ctx args now).invoked = some pn
      · have hpos := executeCommand_pos cfg st cn ctx args now hinit hen
        have hin2 : (execLoop cn ctx args cfg.timeout now st.plugins).invoked =
            some pn := by rw [hpos] at hin; exact hin
        obtain ⟨pf, cmd, hfind, hpa, hc, hh, he, hf2⟩ :=
          execLoop_hit_char cn ctx args cfg.timeout now pn st.plugins hnd hin2
        have hpf : pf = p := by
          rw [getPlugin] at hp
          rw [hp] at hfind
          exact (Option.some.inj hfind).symm
        subst hpf
        have hgp2 : getPlugin (executeCommand cfg st cn ctx args now).state pn =
            some (dispatchOn pf cmd ctx args cfg.timeout now).1 := by
          rw [hpos]
          exact hf2
        obtain ⟨p1, h1, h2, h3, h4⟩ := runCalls_stats cfg hen pn rest
          (executeCommand cfg st cn ctx args now).state
          (dispatchOn pf cmd ctx args cfg.timeout now).1 hinit2 hnd2 hgp2
        refine ⟨p1, h1, ?_, ?_, ?_⟩
        · rw [succCount_cons, h2, dispatchOn_stats]
          have hhd : (executeCommand cfg st cn ctx args now).handled =
              raceSuccess (cmd.behavior ctx args) cfg.timeout := by
            rw [hpos]
            rw [hh, dispatchOn_handled]
          simp only [hin, hhd]
          cases raceSuccess (cmd.behavior ctx args) cfg.timeout <;> simp <;> omega
        · rw [errCount_cons, h3, dispatchOn_stats]
          have hhd : (executeCommand cfg st cn ctx args now).handled =
              raceSuccess (cmd.behavior ctx args) cfg.timeout := by
            rw [hpos]
            rw [hh, dispatchOn_handled]
          simp only [hin, hhd]
          cases raceSuccess (cmd.behavior ctx args) cfg.timeout <;> simp <;> omega
        · rw [elapsedSum_cons, h4, dispatchOn_stats]
          have hel : (executeCommand cfg st cn ctx args now).elapsed =
              some (raceElapsed (cmd.behavior ctx args) cfg.timeout) := by
            rw [hpos]
            rw [he, dispatchOn_elapsed]
          simp only [hin, hel]
          simp
          omega
      · have hgp2 : getPlugin (executeCommand cfg st cn ctx args now).state pn =
            some p := by
          rw [executeCommand_getPlugin_of_ne cfg st cn ctx args now pn hin]
          exact hp
        obtain ⟨p1, h1, h2, h3, h4⟩ := runCalls_stats cfg hen pn rest
          (executeCommand cfg st cn ctx args now).state p hinit2 hnd2 hgp2
        refine ⟨p1, h1, ?_, ?_, ?_⟩
        · rw [succCount_cons, h2]
          simp [hin]
        · rw [errCount_cons, h3]
          simp [hin]
        · rw [elapsedSum_cons, h4]
          simp [hin]

/-- C3: for a freshly loaded plugin, after any sequence of dispatches,
the executions counter equals the number of dispatches to that plugin
on which executeCommand returned true, the errors counter equals the
number on which it returned false, totalExecutionTime equals the sum of
the elapsed times observed over all those attempts (elapsed time is
added on failure too, and the counters are never reset between calls),
and on every successful dispatch lastUsed is set to the completion
time. -/
theorem executeCommand_stats_monotone (cfg : PluginsConfig) (st : ManagerState)
    (pn : String) (p : LoadedPlugin)
    (calls : List (String × BotContext × List String × Nat))
    (hen : cfg.enabled = true) (hinit : st.initialized = true)
    (hnd : (st.plugins.map (fun q => q.name)).Nodup)
    (hp : getPlugin st pn = some p) (hz : p.stats = ⟨0, 0, 0⟩) :
    (∃ p1, getPlugin (runCalls cfg st calls).1 pn = some p1 ∧
      p1.stats.executions = succCount pn (runCalls cfg st calls).2 ∧
      p1.stats.errors = errCount pn (runCalls cfg st calls).2 ∧
      p1.stats.totalExecutionTime = elapsedSum pn (runCalls cfg st calls).2) ∧
    (∀ (s : ManagerState) (cn : String) (ctx : BotContext) (args : List String)
        (now : Nat), (s.plugins.map (fun q => q.name)).Nodup →
      (executeCommand cfg s cn ctx args now).invoked = some pn →
      (executeCommand cfg s cn ctx args now).handled = true →
      ∃ e p2, (executeCommand cfg s cn ctx args now).elapsed = some e ∧
        getPlugin (executeCommand cfg s cn ctx args now).state pn = some p2 ∧
        p2.lastUsed = some (now + e)) := by
  constructor
  · obtain ⟨p1, h1, h2, h3, h4⟩ := runCalls_stats cfg hen pn calls st p hinit hnd hp
    exact ⟨p1, h1, by rw [h2, hz]; simp, by rw [h3, hz]; simp, by rw [h4, hz]; simp⟩
  · intro s cn ctx args now hnds hinv hhand
    obtain ⟨hinit1, hen1⟩ := executeCommand_invoked_pos cfg s cn ctx args now pn hinv
    have hpos := executeCommand_pos cfg s cn ctx args now hinit1 hen1
    have hinv2 : (execLoop cn ctx args cfg.timeout now s.plugins).invoked = some pn := by
      rw [hpos] at hinv
      exact hinv
    obtain ⟨pf, cmd, hfind, hpa, hc, hh, he, hf2⟩ :=
      execLoop_hit_char cn ctx args cfg.timeout now pn s.plugins hnds hinv2
    have hrs : raceSuccess (cmd.behavior ctx args) cfg.timeout = true := by
      rw [hpos] at hhand
      rw [hh, dispatchOn_handled] at hhand
      exact hhand
    refine ⟨raceElapsed (cmd.behavior ctx args) cfg.timeout,
      (dispatchOn pf cmd ctx args cfg.timeout now).1, ?_, ?_, ?_⟩
    · rw [hpos, he, dispatchOn_elapsed]
    · rw [hpos]
      exact hf2
    · rw [dispatchOn_lastUsed, if_pos hrs]

/-! Concrete witnesses instantiating the claim theorems. -/

/-- Witness for C1 on a three-plugin registry whose middle plugin's
onEvent rejects. -/
theorem broadcastEvent_isolation_witness :
    ∃ r, broadcastEvent cfg100 stW1 eventA = Except.ok r ∧
      ∀ q ∈ stW1.plugins, q.active = true → q.name ≠ "B" →
        ((r.invocations.filter (fun x => x.1 = q.name)).length = 1 ∧
          ∀ x ∈ r.invocations, x.1 = q.name → x = (q.name, eventA)) :=
  broadcastEvent_isolation cfg100 stW1 eventA "B" entryB rfl rfl (by decide)
    rfl rfl rfl (by
      intro q hq hqa hqn
      rcases (by simpa [stW1] using hq : q = entryA ∨ q = entryB ∨ q = entryC) with
        rfl | rfl | rfl
      · rfl
      · exact absurd (by rfl) hqn
      · rfl)

/-- Witness for C2 on a registry with an inactive owner of x followed
by two active owners. -/
theorem executeCommand_first_match_witness :
    (executeCommand cfg100 stW2 "x" ctxOk [] 0).invoked = some entryP.name ∧
    entryP.name ≠ entryQ.name ∧
    (executeCommand cfg100 (executeCommand cfg100 stW2 "x" ctxOk [] 0).state "x"
      ctxOk [] 1).invoked = some entryP.name :=
  executeCommand_first_match cfg100 stW2 "x" ctxOk [] 0 1 rfl rfl (by decide)
    [entryI] [] [] entryP entryQ rfl rfl rfl rfl rfl (by decide)

/-- Witness for C3 on a one-call dispatch session against a freshly
loaded plugin. -/
theorem executeCommand_stats_monotone_witness :
    ∃ p1, getPlugin (runCalls cfg100 stW3 callsW).1 "S" = some p1 ∧
      p1.stats.executions = succCount "S" (runCalls cfg100 stW3 callsW).2 ∧
      p1.stats.errors = errCount "S" (runCalls cfg100 stW3 callsW).2 ∧
      p1.stats.totalExecutionTime = elapsedSum "S" (runCalls cfg100 stW3 callsW).2 :=
  (executeCommand_stats_monotone cfg100 stW3 "S" entryS callsW rfl rfl (by decide)
    rfl rfl).1

/-- Witness for the amended C4 on the registry holding pluginX. -/
theorem executeCommand_uses_manager_timeout_witness :
    (executeCommand cfg100 stW4 "x" ctxOk [] 0).handled =
      raceSuccess (cmdX.behavior ctxOk []) cfg100.timeout ∧
    ∀ o : Option Nat,
      (executeCommand cfg100 ⟨[] ++ withOverride (freshEntry pluginX) o :: [],
        stW4.initialized⟩ "x" ctxOk [] 0).handled =
      raceSuccess (cmdX.behavior ctxOk []) cfg100.timeout :=
  executeCommand_uses_manager_timeout cfg100 stW4 "x" ctxOk [] 0 rfl rfl [] []
    (freshEntry pluginX) cmdX rfl (by simp) rfl rfl

/-- Witness for the amended C5 with an immediately-fulfilling reply. -/
theorem initializeManager_missing_dir_demo_witness :
    ((initializeManager cfg100 loaderNone none ⟨[], false⟩).plugins).map
        (fun p => p.name) = ["Demo Plugin"] ∧
    (executeCommand cfg100 (initializeManager cfg100 loaderNone none ⟨[], false⟩)
      "demo" ctxOk ["hello"] 0).handled = true ∧
    ∃ p1, getPlugin (executeCommand cfg100
        (initializeManager cfg100 loaderNone none ⟨[], false⟩) "demo" ctxOk
        ["hello"] 0).state "Demo Plugin" = some p1 ∧
      p1.stats.executions = 1 :=
  initializeManager_missing_dir_demo cfg100 loaderNone ctxOk 0 0 rfl rfl (by decide)

/-- Witness for the amended C6 on the registry holding pluginRej. -/
theorem executeCommand_timeout_boundary_witness :
    (∀ t, cmdR.behavior ctxOk [] = .settles t true → t < cfg100.timeout →
      (executeCommand cfg100 stW6 "r" ctxOk [] 0).handled = true) ∧
    (∀ t b, cmdR.behavior ctxOk [] = .settles t b → cfg100.timeout ≤ t →
      (executeCommand cfg100 stW6 "r" ctxOk [] 0).handled = false) ∧
    (cmdR.behavior ctxOk [] = .never →
      (executeCommand cfg100 stW6 "r" ctxOk [] 0).handled = false) ∧
    (∀ t, cmdR.behavior ctxOk [] = .settles t false → t < cfg100.timeout →
      (executeCommand cfg100 stW6 "r" ctxOk [] 0).handled = false) ∧
    (∃ e p1, (executeCommand cfg100 stW6 "r" ctxOk [] 0).elapsed = some e ∧
      getPlugin (executeCommand cfg100 stW6 "r" ctxOk [] 0).state
        (freshEntry pluginRej).name = some p1 ∧
      p1.stats.totalExecutionTime =
        (freshEntry pluginRej).stats.totalExecutionTime + e ∧
      (0 < e → (freshEntry pluginRej).stats.totalExecutionTime <
        p1.stats.totalExecutionTime)) :=
  executeCommand_timeout_boundary cfg100 stW6 "r" ctxOk [] 0 rfl rfl (by decide)
    [] [] (freshEntry pluginRej) cmdR rfl (by simp) rfl rfl

/-- Witness for C7: deactivating P succeeds and its commands disappear
from getAvailableCommands. -/
theorem setPluginActive_inactive_exclusion_witness :
    (setPluginActive stW7 "P" false).1 = true ∧
    (∀ pr ∈ getAvailableCommands (setPluginActive stW7 "P" false).2, pr.1 ≠ "P") ∧
    (∀ (cfg : PluginsConfig) (X : String) (ctx : BotContext) (args : List String)
        (now : Nat),
      (executeCommand cfg (setPluginActive stW7 "P" false).2 X ctx args
        now).invoked ≠ some "P") :=
  ⟨(setPluginActive_inactive_exclusion stW7 "P" entryP (by decide) rfl).1,
   (setPluginActive_inactive_exclusion stW7 "P" entryP (by decide) rfl).2.2.2.2.2.1,
   (setPluginActive_inactive_exclusion stW7 "P" entryP (by decide) rfl).2.2.2.1⟩

/-- Witness for C8 on a registry with one rejecting cleanup and one
inactive plugin without a cleanup hook. -/
theorem shutdown_completeness_witness :
    ∃ st1 tr, shutdown stW8 = some (st1, tr) ∧
      st1.plugins = [] ∧ st1.initialized = false ∧ getPluginStats st1 = [] ∧
      tr = (stW8.plugins.filter (fun p => p.plugin.cleanup.isSome)).map
        (fun p => p.name) ∧
      (∀ p ∈ stW8.plugins, shutdownPlugin p = some ()) ∧
      (∀ (cfg : PluginsConfig) (cn : String) (ctx : BotContext)
          (args : List String) (now : Nat),
        executeCommand cfg st1 cn ctx args now = ⟨false, st1, none, none⟩) :=
  shutdown_completeness stW8 (by decide)

/-- Witness for C9: a disabled manager, an uninitialized manager, and a
registry with no active owner of the requested command. -/
theorem executeCommand_guards_noop_witness :
    executeCommand cfgOff ⟨[], false⟩ "x" ctxOk [] 0 =
      ⟨false, ⟨[], false⟩, none, none⟩ ∧
    broadcastEvent cfgOff ⟨[], false⟩ eventA = .ok ⟨[], []⟩ ∧
    executeCommand cfg100 stW6 "nope" ctxOk [] 0 = ⟨false, stW6, none, none⟩ :=
  ⟨executeCommand_guards_noop.1 cfgOff ⟨[], false⟩ "x" ctxOk [] 0 (Or.inl rfl),
   executeCommand_guards_noop.2.1 cfgOff ⟨[], false⟩ eventA (Or.inl rfl),
   executeCommand_guards_noop.2.2 cfg100 stW6 "nope" ctxOk [] 0 (by decide)⟩

/-- Witness for C10: loading a plugin named P into a registry that
already holds an entry named P. -/
theorem loadPlugin_replace_same_name_witness :
    ((["d1", "d2"].foldl (loadPlugin loaderP2) stW7.plugins).map
      (fun q => q.name)).Nodup ∧
    ((loadPlugin loaderP2 stW7.plugins "d").length = stW7.plugins.length ∧
      (loadPlugin loaderP2 stW7.plugins "d").find?
        (fun q => q.name = piP2.getName) = some (freshEntry piP2) ∧
      (freshEntry piP2).plugin = piP2 ∧
      (freshEntry piP2).commands = buildCommandTable piP2.getCommands ∧
      (freshEntry piP2).active = true ∧
      (freshEntry piP2).stats = ⟨0, 0, 0⟩ ∧
      (freshEntry piP2).lastUsed = none ∧
      ∀ q ∈ stW7.plugins, q.name ≠ piP2.getName →
        q ∈ loadPlugin loaderP2 stW7.plugins "d") :=
  ⟨loadPlugin_replace_same_name.1 loaderP2 stW7.plugins ["d1", "d2"] (by decide),
   loadPlugin_replace_same_name.2 loaderP2 stW7.plugins "d" piP2 rfl (by decide)⟩

end Buddian
